import Mathlib

/-!
Verification of the sky-texture generator in `src/skytex.rs` (bevy_sk).

Modelling conventions (shallow embedding):

* `f32` values are modelled as exact real numbers (`ℝ`); float literals denote
  their exact decimal values.  The named constant `std::f32::consts::PI` is
  modelled by the exact rational value of that 32-bit float, `PI32`.
* Lean's total field division (`x / 0 = 0`) stands in for the float
  `inf`/`NaN` results of division by zero.  On the one degenerate path the
  claims exercise (a zero dominant-direction vector), both semantics make every
  face-plane intersection report `t >= 0.0` as true resp. not-retained, so the
  retained light-spot point is the sentinel `Vec3::splat(10000.0)` either way.
* `u32` arithmetic wraps modulo `2^32` (Rust release semantics); this matters
  for `size * size` in `generate_cubemap`, which is modelled with an explicit
  `% 2^32`.  The `i32` cast used for the flat pixel index is modelled as exact
  integer arithmetic; theorems about the pixel buffer therefore carry a
  `face_size ≤ 16384` hypothesis, below which the `i32` arithmetic of the
  source cannot overflow.
* The in-place mutation of the pixel vector `data[idx] = color` is modelled by
  `List.set`, and the mutation of the SH coefficient array in `sh_windowing`
  by a functional update, threaded through the same loop structure as the
  source.  Rust's `data[idx]` panics when `idx` is not below the buffer
  length, while `List.set` is a no-op there; the panic condition is therefore
  modelled separately and explicitly by `pixelStoreOutOfBounds`, which holds
  exactly when some iteration of the pixel loops indexes at or beyond the
  buffer length (as happens for overflowing face sizes).
-/

noncomputable section

/-- Three-component float vector (glam `Vec3`), modelled over `ℝ`. -/
@[ext]
structure V3 where
  x : ℝ
  y : ℝ
  z : ℝ

/-- Four-component float vector (glam `Vec4`), modelled over `ℝ`. -/
@[ext]
structure V4 where
  x : ℝ
  y : ℝ
  z : ℝ
  w : ℝ

instance : Add V3 := ⟨fun a b => ⟨a.x + b.x, a.y + b.y, a.z + b.z⟩⟩

instance : Sub V3 := ⟨fun a b => ⟨a.x - b.x, a.y - b.y, a.z - b.z⟩⟩

instance : Neg V3 := ⟨fun a => ⟨-a.x, -a.y, -a.z⟩⟩

/-- `Vec3 * f32` (componentwise scaling). -/
def V3.smul (a : V3) (s : ℝ) : V3 := ⟨a.x * s, a.y * s, a.z * s⟩

/-- `Vec3::dot`. -/
def V3.dot (a b : V3) : ℝ := a.x * b.x + a.y * b.y + a.z * b.z

/-- `Vec3::cross`. -/
def V3.cross (a b : V3) : V3 :=
  ⟨a.y * b.z - a.z * b.y, a.z * b.x - a.x * b.z, a.x * b.y - a.y * b.x⟩

/-- `Vec3::length_squared`. -/
def V3.lengthSq (a : V3) : ℝ := a.dot a

/-- `Vec3::length`. -/
def V3.length (a : V3) : ℝ := Real.sqrt a.lengthSq

/-- `Vec3::normalize` (`self * (1 / length)`; for the zero vector the model
yields the zero vector, see the header note on division by zero). -/
def V3.normalize (a : V3) : V3 := a.smul (1 / a.length)

/-- `Vec3::abs` (componentwise absolute value). -/
def V3.abs (a : V3) : V3 := ⟨|a.x|, |a.y|, |a.z|⟩

/-- `Vec3::max_element`. -/
def V3.maxElement (a : V3) : ℝ := max a.x (max a.y a.z)

/-- `Vec3::lerp`: `self + (rhs - self) * s`. -/
def V3.lerp (a b : V3) (t : ℝ) : V3 := a + (b - a).smul t

/-- `Vec3::ZERO`. -/
def V3.zero : V3 := ⟨0, 0, 0⟩

/-- `Vec3::splat`. -/
def V3.splat (s : ℝ) : V3 := ⟨s, s, s⟩

/-- `Vec4 * f32` (componentwise, including `w`). -/
def V4.smul (a : V4) (s : ℝ) : V4 := ⟨a.x * s, a.y * s, a.z * s, a.w * s⟩

/-- `Vec4::ZERO`. -/
def V4.zero : V4 := ⟨0, 0, 0, 0⟩

/-- Exact rational value of the 32-bit float constant `std::f32::consts::PI`
(bit pattern `0x40490FDB`). -/
def PI32 : ℝ := 13176795 / 4194304

/-- `SphericalHarmonics`: nine three-component coefficients. -/
structure SphericalHarmonics where
  coefficients : Fin 9 → V3

/-- One iteration of the outer `for band in 0..=2` loop of `sh_windowing`.
The state is the running index `i` together with the coefficient array; the
inner `for _ in -band..=band` loop runs `2 * band + 1` times, and each
iteration performs `harmonics.coefficients[i] *= s; i += 1`, modelled as a
functional update at index `i`. -/
def windowBandStep (window_width : ℝ) (st : ℕ × (Fin 9 → V3)) (band : ℕ) :
    ℕ × (Fin 9 → V3) :=
  let s : ℝ := 1 / (1 + window_width * ((band * band * (band + 1) * (band + 1) : ℕ) : ℝ))
  (List.range (2 * band + 1)).foldl
    (fun st2 _ =>
      (st2.1 + 1, fun j => if (j : ℕ) = st2.1 then (st2.2 j).smul s else st2.2 j))
    st

/-- `sh_windowing` from the source: loop over bands 0, 1, 2 starting from
index `i = 0`. -/
def sh_windowing (harmonics : SphericalHarmonics) (window_width : ℝ) :
    SphericalHarmonics :=
  ⟨((List.range 3).foldl (windowBandStep window_width) (0, harmonics.coefficients)).2⟩

/-- `plane_from_points`: normal from the cross product of two edge vectors,
normalized; `d = -normal.dot(p1)`. -/
def plane_from_points (p1 p2 p3 : V3) : V3 × ℝ :=
  let normal := ((p2 - p1).cross (p3 - p1)).normalize
  let d := -(normal.dot p1)
  (normal, d)

/-- `plane_ray_intersect`: `t = -(Pi . N + d) / (V . N)`, intersection point
`Pf = Pi + tV`, and the boolean `t >= 0.0`. -/
def plane_ray_intersect (plane : V3 × ℝ) (ray : V3 × V3) : Bool × V3 :=
  let normal := plane.1
  let d := plane.2
  let ray_pos := ray.1
  let ray_dir := ray.2
  let denominator := ray_dir.dot normal
  let t := -(ray_pos.dot normal + d) / denominator
  let out_pt := ray_pos + ray_dir.smul t
  (decide (0 ≤ t), out_pt)

/-- `math_cubemap_corner`.  The Rust argument is a nonnegative `i32` (all call
sites pass `0..24`); the bit-pattern arithmetic is modelled on `ℕ`, where
Rust's truncating division and remainder agree with `Nat` division. -/
def math_cubemap_corner (i : ℕ) : V3 :=
  let neg : ℝ := if (i / 4) % 2 = 0 then 1 else -1
  let nx := ((i + 24) / 16) % 2
  let ny := (i / 8) % 2
  let nz := (i / 16) % 2
  let u := ((i + 1) / 2) % 2
  let v := (i / 2) % 2
  ⟨if nx ≠ 0 then neg
    else if ny ≠ 0 then (if u ≠ 0 then (-1 : ℝ) else 1) * neg
    else (if u ≠ 0 then (1 : ℝ) else -1) * neg,
   if nx ≠ 0 ∨ nz ≠ 0 then (if v ≠ 0 then (1 : ℝ) else -1) else neg,
   if nx ≠ 0 then (if u ≠ 0 then (-1 : ℝ) else 1) * neg
    else if ny ≠ 0 then (if v ≠ 0 then (1 : ℝ) else -1)
    else neg⟩

/-- The plane generate_cubemap builds for face `i` from the face's first three
corners `math_cubemap_corner(i*4), (i*4+1), (i*4+2)`. -/
def facePlane (i : ℕ) : V3 × ℝ :=
  plane_from_points (math_cubemap_corner (i * 4)) (math_cubemap_corner (i * 4 + 1))
    (math_cubemap_corner (i * 4 + 2))

/-- `sh_dominant_dir`: luminance-weighted band-1 combination, negated and
normalized. -/
def sh_dominant_dir (harmonics : SphericalHarmonics) : V3 :=
  let dir : V3 :=
    ⟨(harmonics.coefficients 3).x * 0.3 + (harmonics.coefficients 3).y * 0.59 +
        (harmonics.coefficients 3).z,
     (harmonics.coefficients 1).x * 0.3 + (harmonics.coefficients 1).y * 0.59 +
        (harmonics.coefficients 1).z,
     (harmonics.coefficients 2).x * 0.3 + (harmonics.coefficients 2).y * 0.59 +
        (harmonics.coefficients 2).z⟩;
  -dir.normalize

/-- `sh_lookup`: SH2 evaluation with the cosine-convolution constants. -/
def sh_lookup (harmonics : SphericalHarmonics) (normal : V3) : V4 :=
  let COSINE_A0 : ℝ := PI32
  let COSINE_A1 : ℝ := 2 * PI32 / 3
  let COSINE_A2 : ℝ := PI32 * 0.25
  let result : V3 :=
    (harmonics.coefficients 0).smul (0.282095 * COSINE_A0) +
    (harmonics.coefficients 1).smul (0.488603 * normal.y * COSINE_A1) +
    (harmonics.coefficients 2).smul (0.488603 * normal.z * COSINE_A1) +
    (harmonics.coefficients 3).smul (0.488603 * normal.x * COSINE_A1) +
    (harmonics.coefficients 4).smul (1.092548 * normal.x * normal.y * COSINE_A2) +
    (harmonics.coefficients 5).smul (1.092548 * normal.y * normal.z * COSINE_A2) +
    (harmonics.coefficients 6).smul (0.315392 * (3 * normal.z * normal.z - 1) * COSINE_A2) +
    (harmonics.coefficients 7).smul (1.092548 * normal.x * normal.z * COSINE_A2) +
    (harmonics.coefficients 8).smul
      (0.546274 * (normal.x * normal.x - normal.y * normal.y) * COSINE_A2)
  ⟨result.x, result.y, result.z, 1⟩

/-- `Vec3::splat(10000.0)`, the initial value of `light_pt`. -/
def sentinelPt : V3 := V3.splat 10000

/-- The `(b, pt)` pair generate_cubemap computes for face `i`: the face plane
intersected with the ray from the cube center along `light_dir`. -/
def faceCandidate (light_dir : V3) (i : ℕ) : Bool × V3 :=
  plane_ray_intersect (facePlane i) (V3.zero, light_dir)

/-- The light-spot center search loop of `generate_cubemap` (lines 89-102):
starting from `Vec3::splat(10000.0)`, for each face keep the intersection
point if `!b` and its squared length beats the current one. -/
def lightPtLoop (light_dir : V3) : V3 :=
  (List.range 6).foldl
    (fun light_pt i =>
      let c := faceCandidate light_dir i
      if c.1 = false ∧ c.2.lengthSq < light_pt.lengthSq then c.2 else light_pt)
    sentinelPt

/-- `u32::next_power_of_two` (release semantics: wrapped to 0 when the result
would overflow, i.e. for `n > 2^31`). -/
def u32_next_power_of_two (n : ℕ) : ℕ :=
  if 2 ^ 31 < n then 0 else 2 ^ Nat.clog 2 n

/-- The bilinearly interpolated cube-surface point of pixel `(x, y)` of face
`i`, with the half-pixel offset and the face-2 flip of both coordinates. -/
def interpPoint (i size y x : ℕ) : V3 :=
  let half_px : ℝ := 0.5 / (size : ℝ)
  let p1 := math_cubemap_corner (i * 4)
  let p2 := math_cubemap_corner (i * 4 + 1)
  let p3 := math_cubemap_corner (i * 4 + 2)
  let p4 := math_cubemap_corner (i * 4 + 3)
  let py0 : ℝ := 1 - ((y : ℝ) / (size : ℝ) + half_px)
  let py : ℝ := if i = 2 then 1 - py0 else py0
  let px0 : ℝ := (x : ℝ) / (size : ℝ) + half_px
  let px : ℝ := if i = 2 then 1 - px0 else px0
  let pl := p1.lerp p4 py
  let pr := p2.lerp p3 py
  pl.lerp pr px

/-- The color of pixel `(x, y)` of face `i`: Chebyshev distance of the
un-normalized surface point to `light_pt`, light-spot color if it is below
the threshold, otherwise the SH lookup at the normalized point. -/
def pixelColor (lookup : SphericalHarmonics) (light_col : V4) (light_pt : V3)
    (light_spot_size_pct : ℝ) (i size y x : ℕ) : V4 :=
  let pt := interpPoint i size y x
  let dist := ((pt - light_pt).abs).maxElement
  let pt_normalized := pt.normalize
  if dist < light_spot_size_pct then light_col else sh_lookup lookup pt_normalized

/-- The `Vec4` pixel buffer of `generate_cubemap`: `vec![Vec4::ZERO; size2*6]`
filled by the face/row/column loops via `data[i*size2 + (y*size + x)] = color`.
`size2 = size * size` is computed in `u32`, hence the `% 2^32`. -/
def cubemapData (lookup : SphericalHarmonics) (face_size : ℕ)
    (light_spot_size_pct light_spot_intensity : ℝ) : List V4 :=
  let light_dir := sh_dominant_dir lookup
  let light_col := (sh_lookup lookup (-light_dir)).smul light_spot_intensity
  let light_pt := lightPtLoop light_dir
  let size := u32_next_power_of_two face_size
  let size2 := size * size % 2 ^ 32
  (List.range 6).foldl
    (fun data i =>
      (List.range size).foldl
        (fun data y =>
          (List.range size).foldl
            (fun data x =>
              data.set (i * size2 + (y * size + x))
                (pixelColor lookup light_col light_pt light_spot_size_pct i size y x))
            data)
        data)
    (List.replicate (size2 * 6) V4.zero)

/-- One RGBA8 channel: `(v * 255.0).clamp(0.0, 255.0) as u8` (the cast
truncates; the value is already in `[0, 255]`). -/
def packChannel (v : ℝ) : ℕ := (⌊min (max (v * 255) 0) 255⌋).toNat

/-- The four bytes of one pixel, in RGBA order. -/
def packPixel (v : V4) : List ℕ := [packChannel v.x, packChannel v.y, packChannel v.z, packChannel v.w]

/-- The flat byte buffer (`flat_map` over the pixel buffer). -/
def imageData (lookup : SphericalHarmonics) (face_size : ℕ)
    (light_spot_size_pct light_spot_intensity : ℝ) : List ℕ :=
  (cubemapData lookup face_size light_spot_size_pct light_spot_intensity).flatMap packPixel

/-- The fields of the returned `Image` that the algorithm determines: the
extent, the byte buffer, and the cube-view tagging. -/
structure Image where
  width : ℕ
  height : ℕ
  depth_or_array_layers : ℕ
  data : List ℕ
  cubeView : Bool

/-- `generate_cubemap`: every path of the source reaches the final
`Some(image)`. -/
def generate_cubemap (lookup : SphericalHarmonics) (face_size : ℕ)
    (light_spot_size_pct light_spot_intensity : ℝ) : Option Image :=
  some
    { width := u32_next_power_of_two face_size
      height := u32_next_power_of_two face_size
      depth_or_array_layers := 6
      data := imageData lookup face_size light_spot_size_pct light_spot_intensity
      cubeView := true }

/-! Claim-side definitions (formalizing the spec's words, to be compared with
the definitions above). -/

/-- Claim-side band of a coefficient index: index 0 is band 0, indices 1-3
band 1, indices 4-8 band 2. -/
def claimBand (i : Fin 9) : ℕ := if (i : ℕ) = 0 then 0 else if (i : ℕ) ≤ 3 then 1 else 2

/-- Claim-side (C1): the intersection points reported as not forward
(boolean false). -/
def consideredCandidates (light_dir : V3) : List V3 :=
  (((List.range 6).map (faceCandidate light_dir)).filter (fun c => !c.1)).map Prod.snd

/-- First-wins running minimum by squared length, seeded with `q`. -/
def runMinLengthSq (q : V3) (l : List V3) : V3 :=
  l.foldl (fun best p => if p.lengthSq < best.lengthSq then p else best) q

/-- Claim-side (C1): among the considered candidates, the one with the
smallest squared length (the loop's initial `splat(10000.0)` if no candidate
is considered at all). -/
def claimLightSpotCenter (light_dir : V3) : V3 :=
  match consideredCandidates light_dir with
  | [] => sentinelPt
  | h :: t => runMinLengthSq h t

/-- Claim-side (C6): `s` is the smallest power of two that is `≥ n` (with
lower bound 1). -/
def IsSmallestPow2Geq (s n : ℕ) : Prop :=
  (∃ k, s = 2 ^ k) ∧ max n 1 ≤ s ∧ ∀ m, (∃ k, m = 2 ^ k) → max n 1 ≤ m → s ≤ m

/-- Claim-side (C7): Chebyshev distance, the maximum absolute component
difference. -/
def chebyshevDist (a b : V3) : ℝ := max |a.x - b.x| (max |a.y - b.y| |a.z - b.z|)

/-- The four RGBA bytes of pixel `p` in a flat byte buffer. -/
def pixelBytes (bytes : List ℕ) (p : ℕ) : Option ℕ × Option ℕ × Option ℕ × Option ℕ :=
  (bytes[4 * p]?, bytes[4 * p + 1]?, bytes[4 * p + 2]?, bytes[4 * p + 3]?)

/-- The Rust store `data[i * size2 + (y * size + x)] = color` panics when the
flat index is not below the buffer length `size2 * 6`.  This predicate holds
when some iteration of generate_cubemap's pixel loops performs such an
out-of-bounds store, i.e. exactly when the real program panics instead of
reaching the final `Some(image)` (the `List.set` model of the store is a
no-op in that case, so the panic is captured by this predicate rather than by
the buffer model itself). -/
def pixelStoreOutOfBounds (face_size : ℕ) : Prop :=
  let size := u32_next_power_of_two face_size
  let size2 := size * size % 2 ^ 32
  ∃ i y x, i < 6 ∧ y < size ∧ x < size ∧ size2 * 6 ≤ i * size2 + (y * size + x)

/-- Claim-side (C4): one channel of the claimed SH2 sum, for channel selector
`sel`: band 0 `coeff[0]*0.282095*π`, the three band-1 terms with `2π/3`, and
the five band-2 basis terms (`xy`, `yz`, `3z²-1`, `xz`, `x²-y²`) with their
normalization constants and `π/4`. -/
def claimSH2Sum (sel : V3 → ℝ) (c : SphericalHarmonics) (n : V3) : ℝ :=
  sel (c.coefficients 0) * 0.282095 * PI32 +
  (sel (c.coefficients 1) * 0.488603 * n.y * (2 * PI32 / 3) +
   sel (c.coefficients 2) * 0.488603 * n.z * (2 * PI32 / 3) +
   sel (c.coefficients 3) * 0.488603 * n.x * (2 * PI32 / 3)) +
  (sel (c.coefficients 4) * (1.092548 * (n.x * n.y)) * (PI32 / 4) +
   sel (c.coefficients 5) * (1.092548 * (n.y * n.z)) * (PI32 / 4) +
   sel (c.coefficients 6) * (0.315392 * (3 * n.z * n.z - 1)) * (PI32 / 4) +
   sel (c.coefficients 7) * (1.092548 * (n.x * n.z)) * (PI32 / 4) +
   sel (c.coefficients 8) * (0.546274 * (n.x * n.x - n.y * n.y)) * (PI32 / 4))

/-- The all-zero coefficient set. -/
def shZero : SphericalHarmonics := ⟨fun _ => V3.zero⟩

/-- A coefficient set with every coefficient `(1, 1, 1)`. -/
def shOnes : SphericalHarmonics := ⟨fun _ => ⟨1, 1, 1⟩⟩

/-- A coefficient set whose band-0 coefficient is `(1, 1, 1)` and whose other
eight coefficients are zero. -/
def shBand0Only : SphericalHarmonics :=
  ⟨fun i => if (i : ℕ) = 0 then ⟨1, 1, 1⟩ else V3.zero⟩

/-! Supporting lemmas. -/

@[simp] theorem V3.add_x (a b : V3) : (a + b).x = a.x + b.x := rfl

@[simp] theorem V3.add_y (a b : V3) : (a + b).y = a.y + b.y := rfl

@[simp] theorem V3.add_z (a b : V3) : (a + b).z = a.z + b.z := rfl

@[simp] theorem V3.sub_x (a b : V3) : (a - b).x = a.x - b.x := rfl

@[simp] theorem V3.sub_y (a b : V3) : (a - b).y = a.y - b.y := rfl

@[simp] theorem V3.sub_z (a b : V3) : (a - b).z = a.z - b.z := rfl

@[simp] theorem V3.neg_x (a : V3) : (-a).x = -a.x := rfl

@[simp] theorem V3.neg_y (a : V3) : (-a).y = -a.y := rfl

@[simp] theorem V3.neg_z (a : V3) : (-a).z = -a.z := rfl

@[simp] theorem V3.smul_x (a : V3) (s : ℝ) : (a.smul s).x = a.x * s := rfl

@[simp] theorem V3.smul_y (a : V3) (s : ℝ) : (a.smul s).y = a.y * s := rfl

@[simp] theorem V3.smul_z (a : V3) (s : ℝ) : (a.smul s).z = a.z * s := rfl

@[simp] theorem V4.smul4_x (a : V4) (s : ℝ) : (a.smul s).x = a.x * s := rfl

@[simp] theorem V4.smul4_y (a : V4) (s : ℝ) : (a.smul s).y = a.y * s := rfl

@[simp] theorem V4.smul4_z (a : V4) (s : ℝ) : (a.smul s).z = a.z * s := rfl

@[simp] theorem V4.smul4_w (a : V4) (s : ℝ) : (a.smul s).w = a.w * s := rfl

/-- Closed form of `sh_windowing`: coefficient `i` is scaled by
`1 / (1 + w * k)` with `k = 0, 4, 36` for bands 0, 1, 2. -/
theorem sh_windowing_coefficients (c : SphericalHarmonics) (w : ℝ) (i : Fin 9) :
    (sh_windowing c w).coefficients i =
      (c.coefficients i).smul
        (1 / (1 + w * (if (i : ℕ) = 0 then 0 else if (i : ℕ) ≤ 3 then (4 : ℝ) else 36))) := by
  have h3 : List.range 3 = [0, 1, 2] := rfl
  have h1 : List.range 1 = [0] := rfl
  have h3b : List.range (2 * 1 + 1) = [0, 1, 2] := rfl
  have h5 : List.range (2 * 2 + 1) = [0, 1, 2, 3, 4] := rfl
  simp only [sh_windowing, windowBandStep, h3, h1, h3b, h5, List.foldl_cons, List.foldl_nil,
    Nat.zero_add]
  fin_cases i <;>
    norm_num [V3.smul]

theorem scale_abs_lt (a s1 s2 : ℝ) (ha : a ≠ 0) (h2 : 0 < s2) (hlt : s2 < s1) :
    |a * s2| < |a * s1| := by
  rw [abs_mul, abs_mul, abs_of_pos h2, abs_of_pos (lt_trans h2 hlt)]
  exact mul_lt_mul_of_pos_left hlt (abs_pos.mpr ha)

/-! Claim theorems. -/

/-- C2 counterexample: for the all-zero coefficient set and window widths
`w1 = 0 < w2 = 1`, the band-1 coefficient magnitude after windowing with `w2`
is not strictly smaller than after windowing with `w1` (both are zero), so the
claim as stated (over every coefficient set) is false. -/
theorem c2_counterexample :
    ¬ |((sh_windowing shZero 1).coefficients 1).x| <
        |((sh_windowing shZero 0).coefficients 1).x| := by
  have h1 := sh_windowing_coefficients shZero 1 1
  have h0 := sh_windowing_coefficients shZero 0 1
  rw [h1, h0]
  simp [shZero, V3.zero, V3.smul]

/-- C2 (amended): for `0 ≤ w1 < w2`, windowing with `w2` yields a strictly
smaller magnitude than windowing with `w1` on every *nonzero* component of
every band-1 and band-2 coefficient (a zero component stays zero under both),
and the band-0 coefficient is unchanged for every window width. -/
theorem c2_windowing_strict_decrease (c : SphericalHarmonics) (w1 w2 : ℝ)
    (h0 : 0 ≤ w1) (h12 : w1 < w2) :
    (∀ i : Fin 9, 1 ≤ (i : ℕ) →
      ((c.coefficients i).x ≠ 0 →
        |((sh_windowing c w2).coefficients i).x| < |((sh_windowing c w1).coefficients i).x|) ∧
      ((c.coefficients i).y ≠ 0 →
        |((sh_windowing c w2).coefficients i).y| < |((sh_windowing c w1).coefficients i).y|) ∧
      ((c.coefficients i).z ≠ 0 →
        |((sh_windowing c w2).coefficients i).z| < |((sh_windowing c w1).coefficients i).z|)) ∧
    (∀ w : ℝ, (sh_windowing c w).coefficients 0 = c.coefficients 0) := by
  constructor
  · intro i hi
    have hne : ¬ (i : ℕ) = 0 := by omega
    have hr1 := sh_windowing_coefficients c w1 i
    have hr2 := sh_windowing_coefficients c w2 i
    rw [if_neg hne] at hr1 hr2
    set k : ℝ := if (i : ℕ) ≤ 3 then (4 : ℝ) else 36 with hk
    have hkpos : 0 < k := by rw [hk]; split <;> norm_num
    have hd1 : 0 < 1 + w1 * k := by nlinarith
    have hd2 : 0 < 1 + w2 * k := by nlinarith
    have hdlt : 1 + w1 * k < 1 + w2 * k := by nlinarith
    have hs2 : 0 < 1 / (1 + w2 * k) := by positivity
    have hslt : 1 / (1 + w2 * k) < 1 / (1 + w1 * k) :=
      one_div_lt_one_div_of_lt hd1 hdlt
    refine ⟨fun hx => ?_, fun hy => ?_, fun hz => ?_⟩
    · rw [hr1, hr2]; exact scale_abs_lt _ _ _ hx hs2 hslt
    · rw [hr1, hr2]; exact scale_abs_lt _ _ _ hy hs2 hslt
    · rw [hr1, hr2]; exact scale_abs_lt _ _ _ hz hs2 hslt
  · intro w
    have h := sh_windowing_coefficients c w 0
    simp only [Fin.isValue] at h
    rw [h]
    norm_num [V3.smul]

/-- C2 witness: at the all-ones coefficient set with `w1 = 0`, `w2 = 1`, the
hypotheses hold and the band-1 x-component strictly decreases in magnitude. -/
theorem c2_witness :
    (0 : ℝ) ≤ 0 ∧ (0 : ℝ) < 1 ∧
      |((sh_windowing shOnes 1).coefficients 1).x| <
        |((sh_windowing shOnes 0).coefficients 1).x| :=
  ⟨le_refl 0, by norm_num,
    ((c2_windowing_strict_decrease shOnes 0 1 (le_refl 0) (by norm_num)).1 1
      (by norm_num)).1 (by norm_num [shOnes])⟩

/-- C5: for every coefficient set and window width `w ≥ 0`, `sh_windowing`
multiplies coefficient `i` by exactly `1 / (1 + w * b^2 * (b+1)^2)` where `b`
is the band of `i` (0 for index 0, 1 for 1-3, 2 for 4-8); in particular the
band-0 coefficient is scaled by 1, i.e. unchanged. -/
theorem c5_windowing_scale (c : SphericalHarmonics) (w : ℝ) (_hw : 0 ≤ w) :
    (∀ i : Fin 9,
      (sh_windowing c w).coefficients i =
        (c.coefficients i).smul
          (1 / (1 + w * (((claimBand i : ℝ)) ^ 2 * ((claimBand i : ℝ) + 1) ^ 2)))) ∧
    (sh_windowing c w).coefficients 0 = c.coefficients 0 := by
  have hmain : ∀ i : Fin 9,
      (sh_windowing c w).coefficients i =
        (c.coefficients i).smul
          (1 / (1 + w * (((claimBand i : ℝ)) ^ 2 * ((claimBand i : ℝ) + 1) ^ 2))) := by
    intro i
    have h := sh_windowing_coefficients c w i
    rw [h]
    unfold claimBand
    by_cases h0 : (i : ℕ) = 0
    · rw [if_pos h0, if_pos h0]; norm_num
    · by_cases h3 : (i : ℕ) ≤ 3
      · rw [if_neg h0, if_neg h0, if_pos h3, if_pos h3]; norm_num
      · rw [if_neg h0, if_neg h0, if_neg h3, if_neg h3]; norm_num
  refine ⟨hmain, ?_⟩
  have h := hmain 0
  rw [h]
  norm_num [claimBand, V3.smul]

/-- C5 witness: at the all-ones set with `w = 1` the hypothesis holds and the
band-0 coefficient is unchanged. -/
theorem c5_witness :
    (0 : ℝ) ≤ 1 ∧ (sh_windowing shOnes 1).coefficients 0 = shOnes.coefficients 0 :=
  ⟨by norm_num, (c5_windowing_scale shOnes 1 (by norm_num)).2⟩

/-! The 24 face-corner values of `math_cubemap_corner` (4 per face, faces in
the order +X, -X, +Y, -Y, +Z, -Z). -/

theorem cornerVal0 : math_cubemap_corner 0 = ⟨1, -1, 1⟩ := by
  norm_num [math_cubemap_corner]

theorem cornerVal1 : math_cubemap_corner 1 = ⟨1, -1, -1⟩ := by
  norm_num [math_cubemap_corner]

theorem cornerVal2 : math_cubemap_corner 2 = ⟨1, 1, -1⟩ := by
  norm_num [math_cubemap_corner]

theorem cornerVal3 : math_cubemap_corner 3 = ⟨1, 1, 1⟩ := by
  norm_num [math_cubemap_corner]

theorem cornerVal4 : math_cubemap_corner 4 = ⟨-1, -1, -1⟩ := by
  norm_num [math_cubemap_corner]

theorem cornerVal5 : math_cubemap_corner 5 = ⟨-1, -1, 1⟩ := by
  norm_num [math_cubemap_corner]

theorem cornerVal6 : math_cubemap_corner 6 = ⟨-1, 1, 1⟩ := by
  norm_num [math_cubemap_corner]

theorem cornerVal7 : math_cubemap_corner 7 = ⟨-1, 1, -1⟩ := by
  norm_num [math_cubemap_corner]

theorem cornerVal8 : math_cubemap_corner 8 = ⟨1, 1, -1⟩ := by
  norm_num [math_cubemap_corner]

theorem cornerVal9 : math_cubemap_corner 9 = ⟨-1, 1, -1⟩ := by
  norm_num [math_cubemap_corner]

theorem cornerVal10 : math_cubemap_corner 10 = ⟨-1, 1, 1⟩ := by
  norm_num [math_cubemap_corner]

theorem cornerVal11 : math_cubemap_corner 11 = ⟨1, 1, 1⟩ := by
  norm_num [math_cubemap_corner]

theorem cornerVal12 : math_cubemap_corner 12 = ⟨-1, -1, -1⟩ := by
  norm_num [math_cubemap_corner]

theorem cornerVal13 : math_cubemap_corner 13 = ⟨1, -1, -1⟩ := by
  norm_num [math_cubemap_corner]

theorem cornerVal14 : math_cubemap_corner 14 = ⟨1, -1, 1⟩ := by
  norm_num [math_cubemap_corner]

theorem cornerVal15 : math_cubemap_corner 15 = ⟨-1, -1, 1⟩ := by
  norm_num [math_cubemap_corner]

theorem cornerVal16 : math_cubemap_corner 16 = ⟨-1, -1, 1⟩ := by
  norm_num [math_cubemap_corner]

theorem cornerVal17 : math_cubemap_corner 17 = ⟨1, -1, 1⟩ := by
  norm_num [math_cubemap_corner]

theorem cornerVal18 : math_cubemap_corner 18 = ⟨1, 1, 1⟩ := by
  norm_num [math_cubemap_corner]

theorem cornerVal19 : math_cubemap_corner 19 = ⟨-1, 1, 1⟩ := by
  norm_num [math_cubemap_corner]

theorem cornerVal20 : math_cubemap_corner 20 = ⟨1, -1, -1⟩ := by
  norm_num [math_cubemap_corner]

theorem cornerVal21 : math_cubemap_corner 21 = ⟨-1, -1, -1⟩ := by
  norm_num [math_cubemap_corner]

theorem cornerVal22 : math_cubemap_corner 22 = ⟨-1, 1, -1⟩ := by
  norm_num [math_cubemap_corner]

theorem cornerVal23 : math_cubemap_corner 23 = ⟨1, 1, -1⟩ := by
  norm_num [math_cubemap_corner]

/-- C4: `sh_lookup` returns the claimed band-weighted SH2 sum on each RGB
channel and a fixed alpha component of exactly 1. -/
theorem c4_sh_lookup_formula (c : SphericalHarmonics) (n : V3) :
    sh_lookup c n = ⟨claimSH2Sum V3.x c n, claimSH2Sum V3.y c n, claimSH2Sum V3.z c n, 1⟩ := by
  refine V4.ext ?_ ?_ ?_ ?_ <;>
    simp only [sh_lookup, claimSH2Sum, V3.add_x, V3.add_y, V3.add_z, V3.smul_x, V3.smul_y,
      V3.smul_z] <;>
    ring

/-- Every face-corner has all components in {-1, +1}. -/
theorem corner_pm : ∀ k, k < 24 →
    (((math_cubemap_corner k).x = 1 ∨ (math_cubemap_corner k).x = -1) ∧
     ((math_cubemap_corner k).y = 1 ∨ (math_cubemap_corner k).y = -1) ∧
     ((math_cubemap_corner k).z = 1 ∨ (math_cubemap_corner k).z = -1)) := by
  intro k hk
  interval_cases k <;> norm_num [math_cubemap_corner]

/-- C8: evaluating `math_cubemap_corner` on all 24 face-corner indices yields
vectors whose components all lie in {-1, +1}, and every one of the 8 sign
combinations (the 8 corners of the unit cube) occurs among them. -/
theorem c8_cubemap_corners :
    (∀ k, k < 24 →
      (((math_cubemap_corner k).x = 1 ∨ (math_cubemap_corner k).x = -1) ∧
       ((math_cubemap_corner k).y = 1 ∨ (math_cubemap_corner k).y = -1) ∧
       ((math_cubemap_corner k).z = 1 ∨ (math_cubemap_corner k).z = -1))) ∧
    (∀ s1 s2 s3 : ℝ, (s1 = 1 ∨ s1 = -1) → (s2 = 1 ∨ s2 = -1) → (s3 = 1 ∨ s3 = -1) →
      ∃ k, k < 24 ∧ math_cubemap_corner k = ⟨s1, s2, s3⟩) := by
  constructor
  · exact corner_pm
  · intro s1 s2 s3 h1 h2 h3
    rcases h1 with rfl | rfl <;> rcases h2 with rfl | rfl <;> rcases h3 with rfl | rfl
    · exact ⟨3, by norm_num, cornerVal3⟩
    · exact ⟨2, by norm_num, cornerVal2⟩
    · exact ⟨0, by norm_num, cornerVal0⟩
    · exact ⟨1, by norm_num, cornerVal1⟩
    · exact ⟨6, by norm_num, cornerVal6⟩
    · exact ⟨7, by norm_num, cornerVal7⟩
    · exact ⟨5, by norm_num, cornerVal5⟩
    · exact ⟨4, by norm_num, cornerVal4⟩

/-- C8 witness: index 0 is in range and its corner has all components in
{-1, +1}. -/
theorem c8_witness :
    (0 : ℕ) < 24 ∧
      (((math_cubemap_corner 0).x = 1 ∨ (math_cubemap_corner 0).x = -1) ∧
       ((math_cubemap_corner 0).y = 1 ∨ (math_cubemap_corner 0).y = -1) ∧
       ((math_cubemap_corner 0).z = 1 ∨ (math_cubemap_corner 0).z = -1)) :=
  ⟨by norm_num, c8_cubemap_corners.1 0 (by norm_num)⟩

/-! Face planes: all six are outward unit axis normals with offset -1. -/

theorem facePlaneVal0 : facePlane 0 = (⟨1, 0, 0⟩, -1) := by
  have h16 : Real.sqrt 16 = 4 := by
    rw [show (16 : ℝ) = 4 ^ 2 by norm_num]
    exact Real.sqrt_sq (by norm_num)
  simp only [facePlane, show (0 * 4 : ℕ) = 0 from rfl, show (0 * 4 + 1 : ℕ) = 1 from rfl,
    show (0 * 4 + 2 : ℕ) = 2 from rfl, cornerVal0, cornerVal1, cornerVal2]
  simp only [plane_from_points, V3.cross, V3.normalize, V3.length, V3.lengthSq, V3.dot, V3.smul,
    V3.sub_x, V3.sub_y, V3.sub_z]
  norm_num [h16]

theorem facePlaneVal1 : facePlane 1 = (⟨-1, 0, 0⟩, -1) := by
  have h16 : Real.sqrt 16 = 4 := by
    rw [show (16 : ℝ) = 4 ^ 2 by norm_num]
    exact Real.sqrt_sq (by norm_num)
  simp only [facePlane, show (1 * 4 : ℕ) = 4 from rfl, show (1 * 4 + 1 : ℕ) = 5 from rfl,
    show (1 * 4 + 2 : ℕ) = 6 from rfl, cornerVal4, cornerVal5, cornerVal6]
  simp only [plane_from_points, V3.cross, V3.normalize, V3.length, V3.lengthSq, V3.dot, V3.smul,
    V3.sub_x, V3.sub_y, V3.sub_z]
  norm_num [h16]

theorem facePlaneVal2 : facePlane 2 = (⟨0, 1, 0⟩, -1) := by
  have h16 : Real.sqrt 16 = 4 := by
    rw [show (16 : ℝ) = 4 ^ 2 by norm_num]
    exact Real.sqrt_sq (by norm_num)
  simp only [facePlane, show (2 * 4 : ℕ) = 8 from rfl, show (2 * 4 + 1 : ℕ) = 9 from rfl,
    show (2 * 4 + 2 : ℕ) = 10 from rfl, cornerVal8, cornerVal9, cornerVal10]
  simp only [plane_from_points, V3.cross, V3.normalize, V3.length, V3.lengthSq, V3.dot, V3.smul,
    V3.sub_x, V3.sub_y, V3.sub_z]
  norm_num [h16]

theorem facePlaneVal3 : facePlane 3 = (⟨0, -1, 0⟩, -1) := by
  have h16 : Real.sqrt 16 = 4 := by
    rw [show (16 : ℝ) = 4 ^ 2 by norm_num]
    exact Real.sqrt_sq (by norm_num)
  simp only [facePlane, show (3 * 4 : ℕ) = 12 from rfl, show (3 * 4 + 1 : ℕ) = 13 from rfl,
    show (3 * 4 + 2 : ℕ) = 14 from rfl, cornerVal12, cornerVal13, cornerVal14]
  simp only [plane_from_points, V3.cross, V3.normalize, V3.length, V3.lengthSq, V3.dot, V3.smul,
    V3.sub_x, V3.sub_y, V3.sub_z]
  norm_num [h16]

theorem facePlaneVal4 : facePlane 4 = (⟨0, 0, 1⟩, -1) := by
  have h16 : Real.sqrt 16 = 4 := by
    rw [show (16 : ℝ) = 4 ^ 2 by norm_num]
    exact Real.sqrt_sq (by norm_num)
  simp only [facePlane, show (4 * 4 : ℕ) = 16 from rfl, show (4 * 4 + 1 : ℕ) = 17 from rfl,
    show (4 * 4 + 2 : ℕ) = 18 from rfl, cornerVal16, cornerVal17, cornerVal18]
  simp only [plane_from_points, V3.cross, V3.normalize, V3.length, V3.lengthSq, V3.dot, V3.smul,
    V3.sub_x, V3.sub_y, V3.sub_z]
  norm_num [h16]

theorem facePlaneVal5 : facePlane 5 = (⟨0, 0, -1⟩, -1) := by
  have h16 : Real.sqrt 16 = 4 := by
    rw [show (16 : ℝ) = 4 ^ 2 by norm_num]
    exact Real.sqrt_sq (by norm_num)
  simp only [facePlane, show (5 * 4 : ℕ) = 20 from rfl, show (5 * 4 + 1 : ℕ) = 21 from rfl,
    show (5 * 4 + 2 : ℕ) = 22 from rfl, cornerVal20, cornerVal21, cornerVal22]
  simp only [plane_from_points, V3.cross, V3.normalize, V3.length, V3.lengthSq, V3.dot, V3.smul,
    V3.sub_x, V3.sub_y, V3.sub_z]
  norm_num [h16]

/-! Norm lemmas. -/

theorem V3.lengthSq_nonneg (v : V3) : 0 ≤ v.lengthSq := by
  unfold V3.lengthSq V3.dot
  have hx := mul_self_nonneg v.x
  have hy := mul_self_nonneg v.y
  have hz := mul_self_nonneg v.z
  linarith

theorem V3.lengthSq_smul (v : V3) (s : ℝ) : (v.smul s).lengthSq = v.lengthSq * s ^ 2 := by
  unfold V3.smul V3.lengthSq V3.dot
  ring

theorem V3.lengthSq_neg (v : V3) : (-v).lengthSq = v.lengthSq := by
  show V3.lengthSq ⟨-v.x, -v.y, -v.z⟩ = _
  unfold V3.lengthSq V3.dot
  ring

theorem V3.lengthSq_eq_zero (v : V3) (h : v.lengthSq = 0) : v = ⟨0, 0, 0⟩ := by
  unfold V3.lengthSq V3.dot at h
  have hx := mul_self_nonneg v.x
  have hy := mul_self_nonneg v.y
  have hz := mul_self_nonneg v.z
  refine V3.ext ?_ ?_ ?_ <;> simp only
  · nlinarith
  · nlinarith
  · nlinarith

theorem V3.lengthSq_normalize (v : V3) (hv : v.lengthSq ≠ 0) : v.normalize.lengthSq = 1 := by
  unfold V3.normalize V3.length
  rw [V3.lengthSq_smul, div_pow, one_pow, Real.sq_sqrt (V3.lengthSq_nonneg v)]
  field_simp

theorem sh_dominant_dir_cases (c : SphericalHarmonics) :
    sh_dominant_dir c = ⟨0, 0, 0⟩ ∨ (sh_dominant_dir c).lengthSq = 1 := by
  unfold sh_dominant_dir
  set v : V3 :=
    ⟨(c.coefficients 3).x * 0.3 + (c.coefficients 3).y * 0.59 + (c.coefficients 3).z,
     (c.coefficients 1).x * 0.3 + (c.coefficients 1).y * 0.59 + (c.coefficients 1).z,
     (c.coefficients 2).x * 0.3 + (c.coefficients 2).y * 0.59 + (c.coefficients 2).z⟩ with hv
  by_cases h : v.lengthSq = 0
  · left
    have hz := V3.lengthSq_eq_zero v h
    rw [hz]
    refine V3.ext ?_ ?_ ?_ <;>
      simp [V3.normalize, V3.smul]
  · right
    rw [V3.lengthSq_neg]
    exact V3.lengthSq_normalize v h

/-! The selection loop versus the claim's selection policy. -/

theorem runMin_cons (q p : V3) (l : List V3) :
    runMinLengthSq q (p :: l) =
      runMinLengthSq (if p.lengthSq < q.lengthSq then p else q) l := rfl

theorem loop_fold_eq_runMin (l : List (Bool × V3)) :
    ∀ acc : V3,
      l.foldl (fun best c => if c.1 = false ∧ c.2.lengthSq < best.lengthSq then c.2 else best)
          acc =
        runMinLengthSq acc ((l.filter (fun c => !c.1)).map Prod.snd) := by
  induction l with
  | nil => intro acc; rfl
  | cons hd t ih =>
    intro acc
    obtain ⟨b, pt⟩ := hd
    cases b with
    | true =>
      simp only [List.foldl_cons, List.filter_cons]
      norm_num
      exact ih acc
    | false =>
      simp only [List.foldl_cons, List.filter_cons]
      norm_num
      rw [runMin_cons, ih]

theorem lightPtLoop_eq_runMin (dir : V3) :
    lightPtLoop dir = runMinLengthSq sentinelPt (consideredCandidates dir) := by
  unfold lightPtLoop consideredCandidates
  rw [← List.foldl_map (faceCandidate dir)
    (fun best c => if c.1 = false ∧ c.2.lengthSq < best.lengthSq then c.2 else best)]
  exact loop_fold_eq_runMin _ sentinelPt

theorem runMin_eq_of_exists (l : List V3) :
    ∀ a b : V3, (∃ p ∈ l, p.lengthSq < a.lengthSq) → (∃ p ∈ l, p.lengthSq < b.lengthSq) →
      runMinLengthSq a l = runMinLengthSq b l := by
  induction l with
  | nil =>
    intro a b ha _
    obtain ⟨p, hp, _⟩ := ha
    cases hp
  | cons c t ih =>
    intro a b ha hb
    rw [runMin_cons, runMin_cons]
    by_cases hca : c.lengthSq < a.lengthSq <;> by_cases hcb : c.lengthSq < b.lengthSq
    · rw [if_pos hca, if_pos hcb]
    · rw [if_pos hca, if_neg hcb]
      obtain ⟨p, hp, hpb⟩ := hb
      have hpt : p ∈ t := by
        rcases List.mem_cons.mp hp with rfl | h
        · exact absurd hpb hcb
        · exact h
      exact ih c b ⟨p, hpt, by push_neg at hcb; linarith⟩ ⟨p, hpt, hpb⟩
    · rw [if_neg hca, if_pos hcb]
      obtain ⟨p, hp, hpa⟩ := ha
      have hpt : p ∈ t := by
        rcases List.mem_cons.mp hp with rfl | h
        · exact absurd hpa hca
        · exact h
      exact ih a c ⟨p, hpt, hpa⟩ ⟨p, hpt, by push_neg at hca; linarith⟩
    · rw [if_neg hca, if_neg hcb]
      obtain ⟨p, hp, hpa⟩ := ha
      have hpt : p ∈ t := by
        rcases List.mem_cons.mp hp with rfl | h
        · exact absurd hpa hca
        · exact h
      obtain ⟨q, hq, hqb⟩ := hb
      have hqt : q ∈ t := by
        rcases List.mem_cons.mp hq with rfl | h
        · exact absurd hqb hcb
        · exact h
      exact ih a b ⟨p, hpt, hpa⟩ ⟨q, hqt, hqb⟩

theorem sentinel_lengthSq : sentinelPt.lengthSq = 300000000 := by
  norm_num [sentinelPt, V3.splat, V3.lengthSq, V3.dot]

theorem V3.zero_dot (n : V3) : V3.zero.dot n = 0 := by
  simp [V3.zero, V3.dot]

theorem V3.zero_add_v (a : V3) : V3.zero + a = a := by
  refine V3.ext ?_ ?_ ?_ <;> simp [V3.zero]

/-- Evaluation of a face candidate once the face plane is known to be
`(n, -1)`: `t = 1 / (dir . n)` and the point is `dir * t`. -/
theorem faceCandidate_eval (dir : V3) (i : ℕ) (n : V3) (hp : facePlane i = (n, -1)) :
    faceCandidate dir i =
      (decide (0 ≤ 1 / dir.dot n), dir.smul (1 / dir.dot n)) := by
  unfold faceCandidate plane_ray_intersect
  rw [hp]
  simp only [V3.zero_dot, V3.zero_add_v]
  norm_num

theorem face_gives_candidate (u : V3) (i : ℕ) (n : V3) (hi : i < 6)
    (hp : facePlane i = (n, -1)) (hneg : u.dot n < 0) :
    u.smul (1 / u.dot n) ∈ consideredCandidates u := by
  unfold consideredCandidates
  refine List.mem_map.mpr ⟨(false, u.smul (1 / u.dot n)), ?_, rfl⟩
  refine List.mem_filter.mpr ⟨?_, by norm_num⟩
  refine List.mem_map.mpr ⟨i, List.mem_range.mpr hi, ?_⟩
  rw [faceCandidate_eval u i n hp]
  have ht : ¬ (0 ≤ 1 / u.dot n) := by
    push_neg
    exact div_neg_of_pos_of_neg one_pos hneg
  simp [ht, hneg]

theorem considered_exists_of_unit (u : V3) (hu : u.lengthSq = 1) :
    ∃ p ∈ consideredCandidates u, p.lengthSq ≤ 3 := by
  have hcomp : 1 / 3 ≤ u.x ^ 2 ∨ 1 / 3 ≤ u.y ^ 2 ∨ 1 / 3 ≤ u.z ^ 2 := by
    by_contra hc
    push_neg at hc
    unfold V3.lengthSq V3.dot at hu
    nlinarith [hc.1, hc.2.1, hc.2.2]
  have key : ∀ (i : ℕ) (n : V3), i < 6 → facePlane i = (n, -1) → u.dot n < 0 →
      1 / 3 ≤ (u.dot n) ^ 2 → ∃ p ∈ consideredCandidates u, p.lengthSq ≤ 3 := by
    intro i n hi hp hneg hsq
    refine ⟨u.smul (1 / u.dot n), face_gives_candidate u i n hi hp hneg, ?_⟩
    rw [V3.lengthSq_smul, hu, one_mul, div_pow, one_pow]
    rw [div_le_iff₀ (by positivity)]
    linarith
  rcases hcomp with hx | hy | hz
  · have hx0 : u.x ≠ 0 := by
      intro h
      rw [h] at hx
      norm_num at hx
    rcases lt_or_gt_of_ne hx0 with hneg | hpos
    · refine key 0 ⟨1, 0, 0⟩ (by norm_num) facePlaneVal0 ?_ ?_ <;>
        · simp only [V3.dot]
          nlinarith
    · refine key 1 ⟨-1, 0, 0⟩ (by norm_num) facePlaneVal1 ?_ ?_ <;>
        · simp only [V3.dot]
          nlinarith
  · have hy0 : u.y ≠ 0 := by
      intro h
      rw [h] at hy
      norm_num at hy
    rcases lt_or_gt_of_ne hy0 with hneg | hpos
    · refine key 2 ⟨0, 1, 0⟩ (by norm_num) facePlaneVal2 ?_ ?_ <;>
        · simp only [V3.dot]
          nlinarith
    · refine key 3 ⟨0, -1, 0⟩ (by norm_num) facePlaneVal3 ?_ ?_ <;>
        · simp only [V3.dot]
          nlinarith
  · have hz0 : u.z ≠ 0 := by
      intro h
      rw [h] at hz
      norm_num at hz
    rcases lt_or_gt_of_ne hz0 with hneg | hpos
    · refine key 4 ⟨0, 0, 1⟩ (by norm_num) facePlaneVal4 ?_ ?_ <;>
        · simp only [V3.dot]
          nlinarith
    · refine key 5 ⟨0, 0, -1⟩ (by norm_num) facePlaneVal5 ?_ ?_ <;>
        · simp only [V3.dot]
          nlinarith

theorem faceCandidate_zero_dir (i : ℕ) : (faceCandidate ⟨0, 0, 0⟩ i).1 = true := by
  unfold faceCandidate plane_ray_intersect
  have hdot : V3.dot ⟨0, 0, 0⟩ (facePlane i).1 = 0 := by
    simp [V3.dot]
  simp [hdot]

theorem consideredCandidates_zero_dir : consideredCandidates ⟨0, 0, 0⟩ = [] := by
  unfold consideredCandidates
  rw [List.filter_eq_nil_iff.mpr, List.map_nil]
  intro c hc
  obtain ⟨i, _, rfl⟩ := List.mem_map.mp hc
  rw [faceCandidate_zero_dir i]
  norm_num

/-- C1: in generate_cubemap's light-spot center search, a face's intersection
point is considered exactly when `plane_ray_intersect` reports it as not
forward (`!b`, i.e. `t < 0`), and the retained point is the considered
candidate of smallest squared length (the initial `splat(10000.0)` when
nothing is considered): the source loop equals the claim's selection policy
on every coefficient set. -/
theorem c1_light_spot_selection (c : SphericalHarmonics) :
    lightPtLoop (sh_dominant_dir c) = claimLightSpotCenter (sh_dominant_dir c) := by
  rcases sh_dominant_dir_cases c with hz | hu
  · rw [hz, lightPtLoop_eq_runMin]
    unfold claimLightSpotCenter
    rw [consideredCandidates_zero_dir]
    rfl
  · obtain ⟨p, hmem, hp3⟩ := considered_exists_of_unit _ hu
    rw [lightPtLoop_eq_runMin]
    unfold claimLightSpotCenter
    cases hcc : consideredCandidates (sh_dominant_dir c) with
    | nil => rw [hcc] at hmem; cases hmem
    | cons h t =>
      rw [hcc] at hmem
      by_cases hh : h.lengthSq < sentinelPt.lengthSq
      · rw [runMin_cons, if_pos hh]
      · rw [runMin_cons, if_neg hh]
        push_neg at hh
        rw [sentinel_lengthSq] at hh
        have hpt : p ∈ t := by
          rcases List.mem_cons.mp hmem with rfl | hmemt
          · linarith
          · exact hmemt
        exact runMin_eq_of_exists t sentinelPt h
          ⟨p, hpt, by rw [sentinel_lengthSq]; linarith⟩
          ⟨p, hpt, by linarith⟩

/-! Reading back the pixel buffer: the nested write loops hit each flat index
exactly once, in increasing order. -/

theorem foldl_update_length {β : Type} (g : List V4 → β → List V4)
    (hg : ∀ d b, (g d b).length = d.length) (l : List β) (d : List V4) :
    (l.foldl g d).length = d.length := by
  induction l generalizing d with
  | nil => rfl
  | cons b t ih => rw [List.foldl_cons, ih, hg]

theorem inner_fold_length (n base : ℕ) (f : ℕ → V4) (d : List V4) :
    ((List.range n).foldl (fun d x => d.set (base + x) (f x)) d).length = d.length :=
  foldl_update_length _ (fun d b => List.length_set d (base + b) (f b)) _ d

theorem inner_fold_get_low (n base k : ℕ) (f : ℕ → V4) (d : List V4) (hk : k < base) :
    ((List.range n).foldl (fun d x => d.set (base + x) (f x)) d)[k]? = d[k]? := by
  induction n with
  | zero => rfl
  | succ n ih =>
    rw [List.range_succ, List.foldl_append, List.foldl_cons, List.foldl_nil]
    rw [List.getElem?_set_ne (by omega)]
    exact ih

theorem inner_fold_get_hit (n base x : ℕ) (f : ℕ → V4) (d : List V4) (hx : x < n)
    (hlen : base + x < d.length) :
    ((List.range n).foldl (fun d x => d.set (base + x) (f x)) d)[base + x]? = some (f x) := by
  induction n with
  | zero => omega
  | succ n ih =>
    rw [List.range_succ, List.foldl_append, List.foldl_cons, List.foldl_nil]
    by_cases hxn : x = n
    · subst hxn
      exact List.getElem?_set_self (by rw [inner_fold_length]; exact hlen)
    · rw [List.getElem?_set_ne (by omega)]
      exact ih (by omega)

theorem middle_fold_length (size m ibase : ℕ) (g : ℕ → ℕ → V4) (d : List V4) :
    ((List.range m).foldl
        (fun d y =>
          (List.range size).foldl (fun d x => d.set (ibase + (y * size + x)) (g y x)) d)
        d).length = d.length := by
  refine foldl_update_length _ (fun d y => ?_) _ d
  simp only [← Nat.add_assoc]
  exact inner_fold_length size (ibase + y * size) (g y) d

theorem middle_fold_get_low (size m ibase k : ℕ) (g : ℕ → ℕ → V4) (d : List V4)
    (hk : k < ibase) :
    ((List.range m).foldl
        (fun d y =>
          (List.range size).foldl (fun d x => d.set (ibase + (y * size + x)) (g y x)) d)
        d)[k]? = d[k]? := by
  induction m generalizing d with
  | zero => rfl
  | succ m ih =>
    rw [List.range_succ, List.foldl_append, List.foldl_cons, List.foldl_nil]
    have hlast :
        ((List.range size).foldl
            (fun d x => d.set (ibase + (m * size + x)) (g m x))
            ((List.range m).foldl
              (fun d y =>
                (List.range size).foldl (fun d x => d.set (ibase + (y * size + x)) (g y x)) d)
              d))[k]? =
          ((List.range m).foldl
            (fun d y =>
              (List.range size).foldl (fun d x => d.set (ibase + (y * size + x)) (g y x)) d)
            d)[k]? := by
      simp only [← Nat.add_assoc]
      exact inner_fold_get_low size (ibase + m * size) k (g m) _ (by omega)
    rw [hlast]
    exact ih d

theorem middle_fold_get_hit (size ibase y x : ℕ) (g : ℕ → ℕ → V4) :
    ∀ (m : ℕ) (d : List V4), y < m → x < size → ibase + (y * size + x) < d.length →
    ((List.range m).foldl
        (fun d y =>
          (List.range size).foldl (fun d x => d.set (ibase + (y * size + x)) (g y x)) d)
        d)[ibase + (y * size + x)]? = some (g y x) := by
  intro m
  induction m with
  | zero => intro d hy hx hlen; omega
  | succ m ih =>
    intro d hy hx hlen
    rw [List.range_succ, List.foldl_append, List.foldl_cons, List.foldl_nil]
    by_cases hym : y = m
    · subst hym
      have hlen2 : ibase + (y * size + x) <
          ((List.range y).foldl
            (fun d yy =>
              (List.range size).foldl (fun d x => d.set (ibase + (yy * size + x)) (g yy x)) d)
            d).length := by
        rw [middle_fold_length]
        exact hlen
      simp only [← Nat.add_assoc] at hlen2 ⊢
      exact inner_fold_get_hit size (ibase + y * size) x (g y) _ hx hlen2
    · have hylt : y < m := by omega
      have hkey : ibase + (y * size + x) < ibase + m * size := by
        have h1 : y * size + x < (y + 1) * size := by
          rw [Nat.add_mul, Nat.one_mul]
          omega
        have h2 : (y + 1) * size ≤ m * size := Nat.mul_le_mul_right size (by omega)
        omega
      have hlast :
          ((List.range size).foldl
              (fun d x => d.set (ibase + (m * size + x)) (g m x))
              ((List.range m).foldl
                (fun d yy =>
                  (List.range size).foldl
                    (fun d x => d.set (ibase + (yy * size + x)) (g yy x)) d)
                d))[ibase + (y * size + x)]? =
            ((List.range m).foldl
              (fun d yy =>
                (List.range size).foldl (fun d x => d.set (ibase + (yy * size + x)) (g yy x)) d)
              d)[ibase + (y * size + x)]? := by
        simp only [← Nat.add_assoc]
        exact inner_fold_get_low size (ibase + m * size) _ (g m) _ (by omega)
      rw [hlast]
      exact ih d hylt hx hlen

theorem outer_fold_length (size size2 r : ℕ) (h : ℕ → ℕ → ℕ → V4) (d : List V4) :
    ((List.range r).foldl
        (fun d i =>
          (List.range size).foldl
            (fun d y =>
              (List.range size).foldl
                (fun d x => d.set (i * size2 + (y * size + x)) (h i y x)) d) d) d).length =
      d.length := by
  refine foldl_update_length _ (fun d i => ?_) _ d
  exact middle_fold_length size size (i * size2) (fun y x => h i y x) d

theorem outer_fold_get_hit (size size2 : ℕ) (h : ℕ → ℕ → ℕ → V4)
    (hs2 : size * size ≤ size2) :
    ∀ (r : ℕ) (d : List V4) (i y x : ℕ), i < r → y < size → x < size →
      i * size2 + (y * size + x) < d.length →
      ((List.range r).foldl
          (fun d i =>
            (List.range size).foldl
              (fun d y =>
                (List.range size).foldl
                  (fun d x => d.set (i * size2 + (y * size + x)) (h i y x)) d) d)
          d)[i * size2 + (y * size + x)]? = some (h i y x) := by
  intro r
  induction r with
  | zero => intro d i y x hi; omega
  | succ r ih =>
    intro d i y x hi hy hx hlen
    rw [List.range_succ, List.foldl_append, List.foldl_cons, List.foldl_nil]
    by_cases hir : i = r
    · subst hir
      refine middle_fold_get_hit size (i * size2) y x (fun y x => h i y x) size _ hy hx ?_
      rw [outer_fold_length]
      exact hlen
    · have hyx : y * size + x < size * size := by
        have h1 : y * size + x < (y + 1) * size := by
          rw [Nat.add_mul, Nat.one_mul]
          omega
        have h2 : (y + 1) * size ≤ size * size := Nat.mul_le_mul_right size (by omega)
        omega
      have hkey : i * size2 + (y * size + x) < r * size2 := by
        have h1 : i * size2 + (y * size + x) < (i + 1) * size2 := by
          rw [Nat.add_mul, Nat.one_mul]
          omega
        have h2 : (i + 1) * size2 ≤ r * size2 := Nat.mul_le_mul_right size2 (by omega)
        omega
      rw [middle_fold_get_low size size (r * size2) _ (fun y x => h r y x) _ hkey]
      exact ih d i y x (by omega) hy hx hlen

theorem clog2_16384 : Nat.clog 2 16384 = 14 := by
  rw [show (16384 : ℕ) = 2 ^ 14 from by norm_num, Nat.clog_pow 2 14 (by norm_num)]

theorem side_le_of_face_size_le (face_size : ℕ) (h : face_size ≤ 16384) :
    u32_next_power_of_two face_size ≤ 16384 := by
  unfold u32_next_power_of_two
  rw [if_neg (by omega)]
  have hc : Nat.clog 2 face_size ≤ 14 :=
    le_trans (Nat.clog_mono_right 2 h) (le_of_eq clog2_16384)
  calc 2 ^ Nat.clog 2 face_size ≤ 2 ^ 14 := Nat.pow_le_pow_right Nat.zero_lt_two hc
    _ ≤ 16384 := by norm_num

/-- Reading pixel `(x, y)` of face `i` out of the pixel buffer, below the
overflow-free sizes: the flat index is `i * size^2 + y * size + x` and the
stored value is `pixelColor`. -/
theorem cubemapData_get (lookup : SphericalHarmonics) (face_size : ℕ) (pct intensity : ℝ)
    (size i y x : ℕ) (hsize : size = u32_next_power_of_two face_size)
    (hfs : face_size ≤ 16384) (hi : i < 6) (hy : y < size) (hx : x < size) :
    (cubemapData lookup face_size pct intensity)[i * (size * size) + (y * size + x)]? =
      some (pixelColor lookup ((sh_lookup lookup (-sh_dominant_dir lookup)).smul intensity)
        (lightPtLoop (sh_dominant_dir lookup)) pct i size y x) := by
  have hsl : size ≤ 16384 := hsize ▸ side_le_of_face_size_le face_size hfs
  have hmod : size * size % 2 ^ 32 = size * size :=
    Nat.mod_eq_of_lt (by calc size * size ≤ 16384 * 16384 := Nat.mul_le_mul hsl hsl
      _ < 2 ^ 32 := by norm_num)
  simp only [cubemapData, ← hsize, hmod]
  have hyx : y * size + x < size * size := by
    have h1 : y * size + x < (y + 1) * size := by
      rw [Nat.add_mul, Nat.one_mul]
      omega
    have h2 : (y + 1) * size ≤ size * size := Nat.mul_le_mul_right size (by omega)
    omega
  refine outer_fold_get_hit size (size * size) _ (le_refl _) 6 _ i y x hi hy hx ?_
  rw [List.length_replicate]
  have h1 : i * (size * size) + (y * size + x) < (i + 1) * (size * size) := by
    rw [Nat.add_mul, Nat.one_mul]
    omega
  have h2 : (i + 1) * (size * size) ≤ 6 * (size * size) := Nat.mul_le_mul_right _ (by omega)
  omega

theorem cubemapData_length (lookup : SphericalHarmonics) (face_size : ℕ)
    (pct intensity : ℝ) :
    (cubemapData lookup face_size pct intensity).length =
      (u32_next_power_of_two face_size * u32_next_power_of_two face_size % 2 ^ 32) * 6 := by
  simp only [cubemapData]
  rw [outer_fold_length]
  exact List.length_replicate _ _

theorem flatMap_packPixel_length (l : List V4) : (l.flatMap packPixel).length = 4 * l.length := by
  induction l with
  | nil => rfl
  | cons v t ih =>
    rw [List.flatMap_cons, List.length_append, ih]
    simp [packPixel]
    omega

theorem imageData_length (lookup : SphericalHarmonics) (face_size : ℕ) (pct intensity : ℝ) :
    (imageData lookup face_size pct intensity).length =
      4 * ((u32_next_power_of_two face_size * u32_next_power_of_two face_size % 2 ^ 32) * 6) := by
  unfold imageData
  rw [flatMap_packPixel_length, cubemapData_length]

theorem u32npot_65536 : u32_next_power_of_two 65536 = 65536 := by
  have hc : Nat.clog 2 65536 = 16 := by
    rw [show (65536 : ℕ) = 2 ^ 16 from by norm_num, Nat.clog_pow 2 16 (by norm_num)]
  unfold u32_next_power_of_two
  rw [if_neg (by norm_num), hc]
  norm_num

/-- C9 counterexample: at `face_size = 65536` the `u32` square `size * size`
wraps to 0, the allocated buffer is empty, and already the first pixel store
(face 0, pixel (0,0), flat index 0) is out of bounds — the real program
panics there and never returns `Some(image)`, so the claim's "for every
input, including any face_size" is false. -/
theorem c9_counterexample : pixelStoreOutOfBounds 65536 := by
  unfold pixelStoreOutOfBounds
  rw [u32npot_65536]
  refine ⟨0, 0, 0, by norm_num, by norm_num, by norm_num, ?_⟩
  norm_num

/-- C9 (amended): for `face_size ≤ 16384` — where every pixel store is in
bounds, so the out-of-bounds panic cannot occur — generate_cubemap reaches
its final `Some(image)` for every coefficient set and all light-spot
parameters: the `Option` return value is never `None`. -/
theorem c9_returns_some (lookup : SphericalHarmonics) (face_size : ℕ)
    (pct intensity : ℝ) (hfs : face_size ≤ 16384) :
    ¬ pixelStoreOutOfBounds face_size ∧
      ∃ img, generate_cubemap lookup face_size pct intensity = some img := by
  constructor
  · rintro ⟨i, y, x, hi, hy, hx, hge⟩
    have hsl := side_le_of_face_size_le face_size hfs
    have hmod : u32_next_power_of_two face_size * u32_next_power_of_two face_size % 2 ^ 32 =
        u32_next_power_of_two face_size * u32_next_power_of_two face_size :=
      Nat.mod_eq_of_lt (by calc u32_next_power_of_two face_size * u32_next_power_of_two face_size
            ≤ 16384 * 16384 := Nat.mul_le_mul hsl hsl
        _ < 2 ^ 32 := by norm_num)
    rw [hmod] at hge
    set s := u32_next_power_of_two face_size with hs
    have hyx : y * s + x < s * s := by
      have h1 : y * s + x < (y + 1) * s := by
        rw [Nat.add_mul, Nat.one_mul]
        omega
      have h2 : (y + 1) * s ≤ s * s := Nat.mul_le_mul_right s (by omega)
      omega
    have h3 : i * (s * s) + (y * s + x) < (i + 1) * (s * s) := by
      rw [Nat.add_mul, Nat.one_mul]
      omega
    have h4 : (i + 1) * (s * s) ≤ 6 * (s * s) := Nat.mul_le_mul_right _ (by omega)
    omega
  · exact ⟨_, rfl⟩

/-- C9 witness: the hypothesis holds at `face_size = 1`, where no store is
out of bounds and the result is `Some`. -/
theorem c9_witness :
    (1 : ℕ) ≤ 16384 ∧
      (¬ pixelStoreOutOfBounds 1 ∧ ∃ img, generate_cubemap shOnes 1 1 1 = some img) :=
  ⟨by norm_num, c9_returns_some shOnes 1 1 1 (by norm_num)⟩

/-- C6 counterexample: at `face_size = 65536` the side rounds to 65536 but
`size * size` overflows `u32` to 0, so the returned buffer is empty instead of
the claimed `6 * side^2 * 4` bytes; the claim is false for this face size. -/
theorem c6_counterexample :
    ∃ img, generate_cubemap shOnes 65536 1 1 = some img ∧
      u32_next_power_of_two 65536 = 65536 ∧ img.data.length = 0 ∧
      img.data.length ≠ 6 * 65536 ^ 2 * 4 := by
  have hc : Nat.clog 2 65536 = 16 := by
    rw [show (65536 : ℕ) = 2 ^ 16 from by norm_num, Nat.clog_pow 2 16 (by norm_num)]
  have h1 : u32_next_power_of_two 65536 = 65536 := by
    unfold u32_next_power_of_two
    rw [if_neg (by norm_num), hc]
    norm_num
  have h2 : (imageData shOnes 65536 1 1).length = 0 := by
    rw [imageData_length, h1]
    norm_num
  exact ⟨_, rfl, h1, h2, by rw [h2]; norm_num⟩

/-- C6 (amended): for `face_size ≤ 16384` (no 32-bit overflow anywhere in the
buffer arithmetic), generate_cubemap uses the smallest power of two that is at
least `face_size` (lower bound 1) as the face side length, and the returned
byte buffer has length `6 * side^2 * 4`. -/
theorem c6_face_size_rounding (lookup : SphericalHarmonics) (face_size : ℕ)
    (pct intensity : ℝ) (hfs : face_size ≤ 16384) :
    ∃ img, generate_cubemap lookup face_size pct intensity = some img ∧
      img.width = u32_next_power_of_two face_size ∧
      img.height = u32_next_power_of_two face_size ∧
      IsSmallestPow2Geq (u32_next_power_of_two face_size) face_size ∧
      img.data.length = 6 * u32_next_power_of_two face_size ^ 2 * 4 := by
  have hif : u32_next_power_of_two face_size = 2 ^ Nat.clog 2 face_size := by
    unfold u32_next_power_of_two
    rw [if_neg (by omega)]
  refine ⟨_, rfl, rfl, rfl, ⟨⟨Nat.clog 2 face_size, hif⟩, ?_, ?_⟩, ?_⟩
  · rw [hif]
    exact max_le (Nat.le_pow_clog one_lt_two face_size) Nat.one_le_two_pow
  · rintro m ⟨k, rfl⟩ hm
    rw [hif]
    exact Nat.pow_le_pow_right (by norm_num)
      ((Nat.le_pow_iff_clog_le one_lt_two).mp (le_trans (le_max_left _ _) hm))
  · show (imageData lookup face_size pct intensity).length = _
    have hsl := side_le_of_face_size_le face_size hfs
    have hmod : u32_next_power_of_two face_size * u32_next_power_of_two face_size % 2 ^ 32 =
        u32_next_power_of_two face_size * u32_next_power_of_two face_size :=
      Nat.mod_eq_of_lt (by calc u32_next_power_of_two face_size * u32_next_power_of_two face_size
            ≤ 16384 * 16384 := Nat.mul_le_mul hsl hsl
        _ < 2 ^ 32 := by norm_num)
    rw [imageData_length, hmod]
    ring

/-- C6 witness: the hypotheses and conclusion at `face_size = 5` (side 8) and
`face_size = 1` (side 1, 24 bytes). -/
theorem c6_witness :
    (5 : ℕ) ≤ 16384 ∧ u32_next_power_of_two 5 = 8 ∧ u32_next_power_of_two 1 = 1 ∧
      (∃ img, generate_cubemap shOnes 5 1 1 = some img ∧
        img.width = u32_next_power_of_two 5 ∧
        img.height = u32_next_power_of_two 5 ∧
        IsSmallestPow2Geq (u32_next_power_of_two 5) 5 ∧
        img.data.length = 6 * u32_next_power_of_two 5 ^ 2 * 4) ∧
      (∃ img, generate_cubemap shOnes 1 1 1 = some img ∧
        img.width = u32_next_power_of_two 1 ∧
        img.height = u32_next_power_of_two 1 ∧
        IsSmallestPow2Geq (u32_next_power_of_two 1) 1 ∧
        img.data.length = 6 * u32_next_power_of_two 1 ^ 2 * 4) := by
  have hc5 : Nat.clog 2 5 = 3 := by
    refine le_antisymm ((Nat.le_pow_iff_clog_le one_lt_two).mp (by norm_num)) ?_
    exact (Nat.pow_lt_iff_lt_clog one_lt_two).mp (by norm_num)
  have h5 : u32_next_power_of_two 5 = 8 := by
    unfold u32_next_power_of_two
    rw [if_neg (by norm_num), hc5]
    norm_num
  have h1 : u32_next_power_of_two 1 = 1 := by
    unfold u32_next_power_of_two
    rw [if_neg (by norm_num), show Nat.clog 2 1 = 0 from Nat.clog_one_right 2]
    norm_num
  exact ⟨by norm_num, h5, h1, c6_face_size_rounding shOnes 5 1 1 (by norm_num),
    c6_face_size_rounding shOnes 1 1 1 (by norm_num)⟩

/-! Interpolation bounds and the byte layout of the flat buffer. -/

@[simp] theorem V3.lerp_x (a b : V3) (t : ℝ) : (a.lerp b t).x = a.x + (b.x - a.x) * t := rfl

@[simp] theorem V3.lerp_y (a b : V3) (t : ℝ) : (a.lerp b t).y = a.y + (b.y - a.y) * t := rfl

@[simp] theorem V3.lerp_z (a b : V3) (t : ℝ) : (a.lerp b t).z = a.z + (b.z - a.z) * t := rfl

theorem lerp_scalar_bounds (a b t : ℝ) (ha1 : -1 ≤ a) (ha2 : a ≤ 1) (hb1 : -1 ≤ b)
    (hb2 : b ≤ 1) (ht1 : 0 ≤ t) (ht2 : t ≤ 1) :
    -1 ≤ a + (b - a) * t ∧ a + (b - a) * t ≤ 1 := by
  constructor <;> nlinarith

theorem pm_bounds (v : ℝ) (h : v = 1 ∨ v = -1) : -1 ≤ v ∧ v ≤ 1 := by
  rcases h with rfl | rfl <;> norm_num

/-- Pixel-center interpolation weights lie in `[0, 1]`. -/
theorem pixel_weight_bounds (size w : ℕ) (hw : w < size) :
    0 ≤ (w : ℝ) / (size : ℝ) + 0.5 / (size : ℝ) ∧
      (w : ℝ) / (size : ℝ) + 0.5 / (size : ℝ) ≤ 1 := by
  have hs : (0 : ℝ) < size := by
    have : 0 < size := by omega
    exact_mod_cast this
  constructor
  · positivity
  · rw [div_add_div_same, div_le_one hs]
    have hw1 : (w : ℝ) + 1 ≤ size := by exact_mod_cast hw
    norm_num
    linarith

/-- All components of the interpolated cube-surface point lie in `[-1, 1]`. -/
theorem interpPoint_bounds (face size y x : ℕ) (hface : face < 6) (hy : y < size)
    (hx : x < size) :
    (-1 ≤ (interpPoint face size y x).x ∧ (interpPoint face size y x).x ≤ 1) ∧
    (-1 ≤ (interpPoint face size y x).y ∧ (interpPoint face size y x).y ≤ 1) ∧
    (-1 ≤ (interpPoint face size y x).z ∧ (interpPoint face size y x).z ≤ 1) := by
  obtain ⟨hpy0, hpy1⟩ := pixel_weight_bounds size y hy
  obtain ⟨hpx0, hpx1⟩ := pixel_weight_bounds size x hx
  have hk1 : face * 4 < 24 := by omega
  have hk2 : face * 4 + 1 < 24 := by omega
  have hk3 : face * 4 + 2 < 24 := by omega
  have hk4 : face * 4 + 3 < 24 := by omega
  obtain ⟨hp1x, hp1y, hp1z⟩ := corner_pm _ hk1
  obtain ⟨hp2x, hp2y, hp2z⟩ := corner_pm _ hk2
  obtain ⟨hp3x, hp3y, hp3z⟩ := corner_pm _ hk3
  obtain ⟨hp4x, hp4y, hp4z⟩ := corner_pm _ hk4
  unfold interpPoint
  simp only [V3.lerp_x, V3.lerp_y, V3.lerp_z]
  have hpy : 0 ≤ (if face = 2 then 1 - (1 - ((y : ℝ) / size + 0.5 / size))
        else 1 - ((y : ℝ) / size + 0.5 / size)) ∧
      (if face = 2 then 1 - (1 - ((y : ℝ) / size + 0.5 / size))
        else 1 - ((y : ℝ) / size + 0.5 / size)) ≤ 1 := by
    split <;> constructor <;> linarith
  have hpx : 0 ≤ (if face = 2 then 1 - ((x : ℝ) / size + 0.5 / size)
        else (x : ℝ) / size + 0.5 / size) ∧
      (if face = 2 then 1 - ((x : ℝ) / size + 0.5 / size)
        else (x : ℝ) / size + 0.5 / size) ≤ 1 := by
    split <;> constructor <;> linarith
  obtain ⟨hpyl, hpyu⟩ := hpy
  obtain ⟨hpxl, hpxu⟩ := hpx
  refine ⟨?_, ?_, ?_⟩
  · obtain ⟨h1l, h1u⟩ := pm_bounds _ hp1x
    obtain ⟨h2l, h2u⟩ := pm_bounds _ hp2x
    obtain ⟨h3l, h3u⟩ := pm_bounds _ hp3x
    obtain ⟨h4l, h4u⟩ := pm_bounds _ hp4x
    obtain ⟨hll, hlu⟩ := lerp_scalar_bounds _ _ _ h1l h1u h4l h4u hpyl hpyu
    obtain ⟨hrl, hru⟩ := lerp_scalar_bounds _ _ _ h2l h2u h3l h3u hpyl hpyu
    exact lerp_scalar_bounds _ _ _ hll hlu hrl hru hpxl hpxu
  · obtain ⟨h1l, h1u⟩ := pm_bounds _ hp1y
    obtain ⟨h2l, h2u⟩ := pm_bounds _ hp2y
    obtain ⟨h3l, h3u⟩ := pm_bounds _ hp3y
    obtain ⟨h4l, h4u⟩ := pm_bounds _ hp4y
    obtain ⟨hll, hlu⟩ := lerp_scalar_bounds _ _ _ h1l h1u h4l h4u hpyl hpyu
    obtain ⟨hrl, hru⟩ := lerp_scalar_bounds _ _ _ h2l h2u h3l h3u hpyl hpyu
    exact lerp_scalar_bounds _ _ _ hll hlu hrl hru hpxl hpxu
  · obtain ⟨h1l, h1u⟩ := pm_bounds _ hp1z
    obtain ⟨h2l, h2u⟩ := pm_bounds _ hp2z
    obtain ⟨h3l, h3u⟩ := pm_bounds _ hp3z
    obtain ⟨h4l, h4u⟩ := pm_bounds _ hp4z
    obtain ⟨hll, hlu⟩ := lerp_scalar_bounds _ _ _ h1l h1u h4l h4u hpyl hpyu
    obtain ⟨hrl, hru⟩ := lerp_scalar_bounds _ _ _ h2l h2u h3l h3u hpyl hpyu
    exact lerp_scalar_bounds _ _ _ hll hlu hrl hru hpxl hpxu

theorem sh_lookup_w (c : SphericalHarmonics) (n : V3) : (sh_lookup c n).w = 1 := rfl

/-- With all band-1 and band-2 coefficients zero, `sh_lookup` does not depend
on the direction. -/
theorem sh_lookup_const (c : SphericalHarmonics)
    (hc : ∀ i : Fin 9, (i : ℕ) ≠ 0 → c.coefficients i = V3.zero) (n m : V3) :
    sh_lookup c n = sh_lookup c m := by
  have h1 := hc 1 (by decide)
  have h2 := hc 2 (by decide)
  have h3 := hc 3 (by decide)
  have h4 := hc 4 (by decide)
  have h5 := hc 5 (by decide)
  have h6 := hc 6 (by decide)
  have h7 := hc 7 (by decide)
  have h8 := hc 8 (by decide)
  refine V4.ext ?_ ?_ ?_ ?_ <;>
    simp only [sh_lookup, h1, h2, h3, h4, h5, h6, h7, h8, V3.zero, V3.smul, V3.add_x, V3.add_y,
      V3.add_z] <;>
    ring

theorem sh_dominant_dir_of_band1_zero (c : SphericalHarmonics)
    (h1 : c.coefficients 1 = V3.zero) (h2 : c.coefficients 2 = V3.zero)
    (h3 : c.coefficients 3 = V3.zero) :
    sh_dominant_dir c = ⟨0, 0, 0⟩ := by
  unfold sh_dominant_dir
  rw [h1, h2, h3]
  refine V3.ext ?_ ?_ ?_ <;>
    simp [V3.zero, V3.normalize, V3.smul]

theorem lightPtLoop_zero_dir : lightPtLoop ⟨0, 0, 0⟩ = sentinelPt := by
  rw [lightPtLoop_eq_runMin, consideredCandidates_zero_dir]
  rfl

/-- With only band 0 nonzero and `pct ≤ 9999`, every pixel takes the ambient
branch (the light-spot point stays at the sentinel, distance at least 9999). -/
theorem pixelColor_ambient (lookup : SphericalHarmonics) (pct intensity : ℝ)
    (hcoef : ∀ i : Fin 9, (i : ℕ) ≠ 0 → lookup.coefficients i = V3.zero)
    (hpct : pct ≤ 9999) (face size y x : ℕ) (hface : face < 6) (hy : y < size)
    (hx : x < size) :
    pixelColor lookup ((sh_lookup lookup (-sh_dominant_dir lookup)).smul intensity)
        (lightPtLoop (sh_dominant_dir lookup)) pct face size y x =
      sh_lookup lookup (interpPoint face size y x).normalize := by
  have hdir : sh_dominant_dir lookup = ⟨0, 0, 0⟩ :=
    sh_dominant_dir_of_band1_zero lookup (hcoef 1 (by decide)) (hcoef 2 (by decide))
      (hcoef 3 (by decide))
  have hlp : lightPtLoop (sh_dominant_dir lookup) = sentinelPt := by
    rw [hdir]
    exact lightPtLoop_zero_dir
  obtain ⟨⟨hxl, hxu⟩, _, _⟩ := interpPoint_bounds face size y x hface hy hx
  unfold pixelColor
  rw [hlp]
  rw [if_neg]
  push_neg
  have hax : |(interpPoint face size y x).x - 10000| ≥ 9999 := by
    rw [abs_of_nonpos (by linarith)]
    linarith
  calc pct ≤ 9999 := hpct
    _ ≤ |(interpPoint face size y x).x - 10000| := hax
    _ ≤ ((interpPoint face size y x - sentinelPt).abs).maxElement := by
        show _ ≤ max |(interpPoint face size y x).x - 10000| _
        simp only [sentinelPt, V3.splat, V3.sub_x]
        exact le_max_left _ _

theorem index_decompose (size j : ℕ) (hsz : 0 < size) (hj : j < 6 * (size * size)) :
    ∃ face y x, face < 6 ∧ y < size ∧ x < size ∧
      j = face * (size * size) + (y * size + x) := by
  have hs2 : 0 < size * size := Nat.mul_pos hsz hsz
  refine ⟨j / (size * size), j % (size * size) / size, j % (size * size) % size, ?_, ?_, ?_, ?_⟩
  · exact (Nat.div_lt_iff_lt_mul hs2).mpr hj
  · have hrem : j % (size * size) < size * size := Nat.mod_lt _ hs2
    exact (Nat.div_lt_iff_lt_mul hsz).mpr hrem
  · exact Nat.mod_lt _ hsz
  · have e1 : j = size * size * (j / (size * size)) + j % (size * size) :=
      (Nat.div_add_mod j (size * size)).symm
    have e2 : j % (size * size) = size * (j % (size * size) / size) + j % (size * size) % size :=
      (Nat.div_add_mod _ size).symm
    have e3 : j / (size * size) * (size * size) = size * size * (j / (size * size)) :=
      Nat.mul_comm _ _
    have e4 : j % (size * size) / size * size = size * (j % (size * size) / size) :=
      Nat.mul_comm _ _
    omega

theorem side_pos (face_size : ℕ) (h : face_size ≤ 16384) :
    0 < u32_next_power_of_two face_size := by
  unfold u32_next_power_of_two
  rw [if_neg (by omega)]
  exact Nat.one_le_two_pow

theorem flatMap_packPixel_get (l : List V4) :
    ∀ (n j : ℕ), j < 4 →
      (l.flatMap packPixel)[4 * n + j]? = (l[n]?).bind fun v => (packPixel v)[j]? := by
  induction l with
  | nil => intro n j hj; simp
  | cons v t ih =>
    intro n j hj
    rw [List.flatMap_cons]
    cases n with
    | zero =>
      rw [List.getElem?_append_left (by simp [packPixel]; omega)]
      simp
    | succ n =>
      rw [List.getElem?_append_right (by simp [packPixel]; omega)]
      have harith : 4 * (n + 1) + j - (packPixel v).length = 4 * n + j := by
        simp [packPixel]
        omega
      rw [harith, ih n j hj]
      simp

theorem chebyshevDist_eq (a b : V3) : chebyshevDist a b = ((a - b).abs).maxElement := rfl

theorem packChannel_one : packChannel 1 = 255 := by
  have h : min (max ((1 : ℝ) * 255) 0) 255 = ((255 : ℤ) : ℝ) := by
    push_cast
    norm_num
  rw [packChannel, h, Int.floor_intCast]
  rfl

theorem packChannel_lt_of_lt_one (intensity : ℝ) (h : intensity < 1) :
    packChannel intensity < 255 := by
  have h1 : intensity * 255 < 255 := by nlinarith
  have h2 : min (max (intensity * 255) 0) 255 < 255 :=
    lt_of_le_of_lt (min_le_left _ _) (max_lt h1 (by norm_num))
  have h3 : ⌊min (max (intensity * 255) 0) 255⌋ < (255 : ℤ) := by
    rw [Int.floor_lt]
    push_cast
    linarith
  unfold packChannel
  omega

/-- C7 (amended): for `face_size ≤ 16384` (the overflow-free regime), the
pixel buffer holds, at face-major flat index `face * size^2 + y * size + x`,
the light-spot color when the Chebyshev distance between the un-normalized
interpolated cube-surface point and the light-spot center is below
`light_spot_size_pct`, and the SH lookup at the normalized point otherwise. -/
theorem c7_pixel_rule (lookup : SphericalHarmonics) (face_size : ℕ) (pct intensity : ℝ)
    (size face y x : ℕ) (hsize : size = u32_next_power_of_two face_size)
    (hfs : face_size ≤ 16384) (hface : face < 6) (hy : y < size) (hx : x < size) :
    (cubemapData lookup face_size pct intensity)[face * size ^ 2 + (y * size + x)]? =
      some (if chebyshevDist (interpPoint face size y x)
            (lightPtLoop (sh_dominant_dir lookup)) < pct
        then (sh_lookup lookup (-sh_dominant_dir lookup)).smul intensity
        else sh_lookup lookup (interpPoint face size y x).normalize) := by
  rw [show face * size ^ 2 + (y * size + x) = face * (size * size) + (y * size + x) from by
    ring]
  rw [cubemapData_get lookup face_size pct intensity size face y x hsize hfs hface hy hx]
  unfold pixelColor
  rw [chebyshevDist_eq]

/-- C7 witness: the hypotheses hold at `face_size = 1`, face 0, pixel (0,0). -/
theorem c7_witness :
    (1 : ℕ) ≤ 16384 ∧ 0 < u32_next_power_of_two 1 ∧
      (cubemapData shOnes 1 (3 / 10) 6)[0 * u32_next_power_of_two 1 ^ 2 +
          (0 * u32_next_power_of_two 1 + 0)]? =
        some (if chebyshevDist (interpPoint 0 (u32_next_power_of_two 1) 0 0)
              (lightPtLoop (sh_dominant_dir shOnes)) < 3 / 10
          then (sh_lookup shOnes (-sh_dominant_dir shOnes)).smul 6
          else sh_lookup shOnes (interpPoint 0 (u32_next_power_of_two 1) 0 0).normalize) :=
  ⟨by norm_num, side_pos 1 (by norm_num),
    c7_pixel_rule shOnes 1 (3 / 10) 6 (u32_next_power_of_two 1) 0 0 0 rfl (by norm_num)
      (by norm_num) (side_pos 1 (by norm_num)) (side_pos 1 (by norm_num))⟩

/-- C7 counterexample: at `face_size = 65536` the `u32` square `size * size`
wraps to 0, the buffer is empty, and nothing is stored at the face-major index
of face 0, pixel (0,0) — the claim fails for this face size. -/
theorem c7_counterexample :
    ¬ ∃ v : V4, (cubemapData shOnes 65536 1 1)[0 * 65536 ^ 2 + (0 * 65536 + 0)]? = some v := by
  have hlen : (cubemapData shOnes 65536 1 1).length = 0 := by
    rw [cubemapData_length, u32npot_65536]
    norm_num
  have hnone : (cubemapData shOnes 65536 1 1)[0 * 65536 ^ 2 + (0 * 65536 + 0)]? = none := by
    refine List.getElem?_eq_none_iff.mpr ?_
    rw [hlen]
    omega
  rintro ⟨v, hv⟩
  rw [hnone] at hv
  cases hv

/-- C10: the pre-packing alpha of a light-spot pixel is `light_spot_intensity`
(the intensity multiplier scales sh_lookup's fixed alpha of 1.0), and of an
ambient pixel exactly 1.0; hence the packed alpha byte is 255 for ambient
pixels and `clamp(intensity*255, 0, 255)` truncated (`packChannel intensity`)
for spot pixels, which is below 255 whenever `intensity < 1`. -/
theorem c10_alpha_byte (lookup : SphericalHarmonics) (face_size : ℕ) (pct intensity : ℝ)
    (size face y x : ℕ) (hsize : size = u32_next_power_of_two face_size)
    (hfs : face_size ≤ 16384) (hface : face < 6) (hy : y < size) (hx : x < size) :
    (chebyshevDist (interpPoint face size y x) (lightPtLoop (sh_dominant_dir lookup)) < pct →
      (pixelColor lookup ((sh_lookup lookup (-sh_dominant_dir lookup)).smul intensity)
          (lightPtLoop (sh_dominant_dir lookup)) pct face size y x).w = intensity ∧
      (imageData lookup face_size pct intensity)[4 * (face * size ^ 2 + (y * size + x)) + 3]? =
        some (packChannel intensity)) ∧
    (¬ chebyshevDist (interpPoint face size y x) (lightPtLoop (sh_dominant_dir lookup)) < pct →
      (pixelColor lookup ((sh_lookup lookup (-sh_dominant_dir lookup)).smul intensity)
          (lightPtLoop (sh_dominant_dir lookup)) pct face size y x).w = 1 ∧
      (imageData lookup face_size pct intensity)[4 * (face * size ^ 2 + (y * size + x)) + 3]? =
        some 255) ∧
    (intensity < 1 → packChannel intensity < 255) := by
  have hget := cubemapData_get lookup face_size pct intensity size face y x hsize hfs hface hy hx
  have hbyte : (imageData lookup face_size pct intensity)[4 * (face * size ^ 2 + (y * size + x)) + 3]? =
        some (packChannel (pixelColor lookup
          ((sh_lookup lookup (-sh_dominant_dir lookup)).smul intensity)
          (lightPtLoop (sh_dominant_dir lookup)) pct face size y x).w) := by
    unfold imageData
    rw [show face * size ^ 2 + (y * size + x) = face * (size * size) + (y * size + x) from by
      ring]
    rw [flatMap_packPixel_get _ _ 3 (by norm_num), hget]
    rfl
  have hcond : chebyshevDist (interpPoint face size y x)
        (lightPtLoop (sh_dominant_dir lookup)) =
      ((interpPoint face size y x - lightPtLoop (sh_dominant_dir lookup)).abs).maxElement := rfl
  refine ⟨fun hspot => ?_, fun hambient => ?_, packChannel_lt_of_lt_one intensity⟩
  · have hcol : pixelColor lookup ((sh_lookup lookup (-sh_dominant_dir lookup)).smul intensity)
        (lightPtLoop (sh_dominant_dir lookup)) pct face size y x =
          (sh_lookup lookup (-sh_dominant_dir lookup)).smul intensity := by
      unfold pixelColor
      rw [if_pos (by rw [← hcond]; exact hspot)]
    have hw : (pixelColor lookup ((sh_lookup lookup (-sh_dominant_dir lookup)).smul intensity)
        (lightPtLoop (sh_dominant_dir lookup)) pct face size y x).w = intensity := by
      rw [hcol, V4.smul4_w, sh_lookup_w, one_mul]
    exact ⟨hw, by rw [hbyte, hw]⟩
  · have hcol : pixelColor lookup ((sh_lookup lookup (-sh_dominant_dir lookup)).smul intensity)
        (lightPtLoop (sh_dominant_dir lookup)) pct face size y x =
          sh_lookup lookup (interpPoint face size y x).normalize := by
      unfold pixelColor
      rw [if_neg (by rw [← hcond]; exact hambient)]
    have hw : (pixelColor lookup ((sh_lookup lookup (-sh_dominant_dir lookup)).smul intensity)
        (lightPtLoop (sh_dominant_dir lookup)) pct face size y x).w = 1 := by
      rw [hcol, sh_lookup_w]
    refine ⟨hw, ?_⟩
    rw [hbyte, hw, packChannel_one]

/-- C10 witness: the hypotheses hold at `face_size = 1`, face 0, pixel (0,0),
`intensity = 1/2`, and the below-255 conclusion applies at that intensity. -/
theorem c10_witness :
    (1 : ℕ) ≤ 16384 ∧ ((1 : ℝ) / 2 < 1 → packChannel (1 / 2) < 255) :=
  ⟨by norm_num,
    (c10_alpha_byte shOnes 1 (3 / 10) (1 / 2) (u32_next_power_of_two 1) 0 0 0 rfl (by norm_num)
      (by norm_num) (side_pos 1 (by norm_num)) (side_pos 1 (by norm_num))).2.2⟩

theorem u32npot_one : u32_next_power_of_two 1 = 1 := by
  unfold u32_next_power_of_two
  rw [if_neg (by norm_num), show Nat.clog 2 1 = 0 from Nat.clog_one_right 2]
  norm_num

/-- C3 (amended): with only the band-0 coefficient nonzero, provided the
light-spot threshold is at most 9999 (every pixel's Chebyshev distance to the
sentinel light-spot center is at least 9999) and the face size is in the
overflow-free regime, every pixel of the produced image holds the identical
RGBA byte value. -/
theorem c3_flat_field (lookup : SphericalHarmonics) (face_size : ℕ) (pct intensity : ℝ)
    (hcoef : ∀ i : Fin 9, (i : ℕ) ≠ 0 → lookup.coefficients i = V3.zero)
    (hpct : pct ≤ 9999) (hfs : face_size ≤ 16384) (j k : ℕ)
    (hj : j < 6 * (u32_next_power_of_two face_size * u32_next_power_of_two face_size))
    (hk : k < 6 * (u32_next_power_of_two face_size * u32_next_power_of_two face_size)) :
    pixelBytes (imageData lookup face_size pct intensity) j =
      pixelBytes (imageData lookup face_size pct intensity) k := by
  have key : ∀ p, p < 6 * (u32_next_power_of_two face_size * u32_next_power_of_two face_size) →
      ∀ r, r < 4 → (imageData lookup face_size pct intensity)[4 * p + r]? =
        (packPixel (sh_lookup lookup V3.zero))[r]? := by
    intro p hp r hr
    obtain ⟨face, y, x, hface, hy, hx, rfl⟩ :=
      index_decompose (u32_next_power_of_two face_size) p (side_pos face_size hfs) hp
    unfold imageData
    rw [flatMap_packPixel_get _ _ r hr,
      cubemapData_get lookup face_size pct intensity (u32_next_power_of_two face_size)
        face y x rfl hfs hface hy hx]
    rw [Option.some_bind]
    rw [pixelColor_ambient lookup pct intensity hcoef hpct face
      (u32_next_power_of_two face_size) y x hface hy hx]
    rw [sh_lookup_const lookup hcoef
      ((interpPoint face (u32_next_power_of_two face_size) y x).normalize) V3.zero]
  have kj0 : (imageData lookup face_size pct intensity)[4 * j]? =
      (packPixel (sh_lookup lookup V3.zero))[0]? := key j hj 0 (by norm_num)
  have kj1 := key j hj 1 (by norm_num)
  have kj2 := key j hj 2 (by norm_num)
  have kj3 := key j hj 3 (by norm_num)
  have kk0 : (imageData lookup face_size pct intensity)[4 * k]? =
      (packPixel (sh_lookup lookup V3.zero))[0]? := key k hk 0 (by norm_num)
  have kk1 := key k hk 1 (by norm_num)
  have kk2 := key k hk 2 (by norm_num)
  have kk3 := key k hk 3 (by norm_num)
  unfold pixelBytes
  rw [kj0, kj1, kj2, kj3, kk0, kk1, kk2, kk3]

/-- C3 witness: the hypotheses at the band-0-only set, `face_size = 1`,
`pct = 3/10`, comparing the pixels of faces 0 and 1. -/
theorem c3_witness :
    ((3 : ℝ) / 10 ≤ 9999) ∧ ((1 : ℕ) ≤ 16384) ∧
      pixelBytes (imageData shBand0Only 1 (3 / 10) 6) 0 =
        pixelBytes (imageData shBand0Only 1 (3 / 10) 6) 1 := by
  have hcoef : ∀ i : Fin 9, (i : ℕ) ≠ 0 → shBand0Only.coefficients i = V3.zero := by
    intro i hi
    simp [shBand0Only, hi]
  refine ⟨by norm_num, by norm_num, ?_⟩
  refine c3_flat_field shBand0Only 1 (3 / 10) 6 hcoef (by norm_num) (by norm_num) 0 1 ?_ ?_ <;>
    rw [u32npot_one] <;> norm_num

theorem shB0_lookup (n : V3) :
    sh_lookup shBand0Only n =
      ⟨0.282095 * PI32, 0.282095 * PI32, 0.282095 * PI32, 1⟩ := by
  have h0 : shBand0Only.coefficients 0 = ⟨1, 1, 1⟩ := by simp [shBand0Only]
  have hz : ∀ i : Fin 9, (i : ℕ) ≠ 0 → shBand0Only.coefficients i = V3.zero := by
    intro i hi
    simp [shBand0Only, hi]
  refine V4.ext ?_ ?_ ?_ ?_ <;>
    simp only [sh_lookup, h0, hz 1 (by decide), hz 2 (by decide), hz 3 (by decide),
      hz 4 (by decide), hz 5 (by decide), hz 6 (by decide), hz 7 (by decide),
      hz 8 (by decide), V3.zero, V3.smul, V3.add_x, V3.add_y, V3.add_z] <;>
    ring

theorem interpPoint_face0 : interpPoint 0 1 0 0 = ⟨1, 0, 0⟩ := by
  have e1 : math_cubemap_corner (0 * 4) = ⟨1, -1, 1⟩ := cornerVal0
  have e2 : math_cubemap_corner (0 * 4 + 1) = ⟨1, -1, -1⟩ := cornerVal1
  have e3 : math_cubemap_corner (0 * 4 + 2) = ⟨1, 1, -1⟩ := cornerVal2
  have e4 : math_cubemap_corner (0 * 4 + 3) = ⟨1, 1, 1⟩ := cornerVal3
  unfold interpPoint
  rw [e1, e2, e3, e4]
  refine V3.ext ?_ ?_ ?_ <;>
    norm_num [V3.lerp_x, V3.lerp_y, V3.lerp_z]

theorem interpPoint_face1 : interpPoint 1 1 0 0 = ⟨-1, 0, 0⟩ := by
  have e1 : math_cubemap_corner (1 * 4) = ⟨-1, -1, -1⟩ := cornerVal4
  have e2 : math_cubemap_corner (1 * 4 + 1) = ⟨-1, -1, 1⟩ := cornerVal5
  have e3 : math_cubemap_corner (1 * 4 + 2) = ⟨-1, 1, 1⟩ := cornerVal6
  have e4 : math_cubemap_corner (1 * 4 + 3) = ⟨-1, 1, -1⟩ := cornerVal7
  unfold interpPoint
  rw [e1, e2, e3, e4]
  refine V3.ext ?_ ?_ ?_ <;>
    norm_num [V3.lerp_x, V3.lerp_y, V3.lerp_z]

theorem packChannel_spot : packChannel (0.282095 * PI32 * 2) = 255 := by
  have hmax : max (0.282095 * PI32 * 2 * 255) 0 = 0.282095 * PI32 * 2 * 255 :=
    max_eq_left (by unfold PI32; norm_num)
  have hmin : min (0.282095 * PI32 * 2 * 255) 255 = (255 : ℝ) :=
    min_eq_right (by unfold PI32; norm_num)
  have hfl : ⌊(255 : ℝ)⌋ = (255 : ℤ) := by
    rw [show (255 : ℝ) = ((255 : ℤ) : ℝ) from by norm_num, Int.floor_intCast]
  unfold packChannel
  rw [hmax, hmin, hfl]
  rfl

theorem packChannel_ambient : packChannel (0.282095 * PI32) = 225 := by
  have hmax : max (0.282095 * PI32 * 255) 0 = 0.282095 * PI32 * 255 :=
    max_eq_left (by unfold PI32; norm_num)
  have hmin : min (0.282095 * PI32 * 255) 255 = 0.282095 * PI32 * 255 :=
    min_eq_left (by unfold PI32; norm_num)
  have hfl : ⌊0.282095 * PI32 * 255⌋ = (225 : ℤ) := by
    rw [Int.floor_eq_iff]
    constructor
    · unfold PI32; push_cast; norm_num
    · unfold PI32; push_cast; norm_num
  unfold packChannel
  rw [hmax, hmin, hfl]
  rfl

/-- C3 counterexample: with only band 0 nonzero (value (1,1,1)), `face_size`
1, `light_spot_size_pct = 10000.5` and `intensity = 2`, the degenerate
dominant direction leaves the light-spot center at the sentinel
`(10000, 10000, 10000)`: face 0's single pixel has Chebyshev distance 10000
(a light-spot pixel, red byte 255) while face 1's has distance 10001 (an
ambient pixel, red byte 225), so not all pixels are identical and the claim
as stated is false. -/
theorem c3_counterexample :
    pixelBytes (imageData shBand0Only 1 (20001 / 2) 2) 0 ≠
      pixelBytes (imageData shBand0Only 1 (20001 / 2) 2) 1 := by
  have hcoef : ∀ i : Fin 9, (i : ℕ) ≠ 0 → shBand0Only.coefficients i = V3.zero := by
    intro i hi
    simp [shBand0Only, hi]
  have hdir : sh_dominant_dir shBand0Only = ⟨0, 0, 0⟩ :=
    sh_dominant_dir_of_band1_zero _ (hcoef 1 (by decide)) (hcoef 2 (by decide))
      (hcoef 3 (by decide))
  have hlp : lightPtLoop (sh_dominant_dir shBand0Only) = sentinelPt := by
    rw [hdir]
    exact lightPtLoop_zero_dir
  have hget0 := cubemapData_get shBand0Only 1 (20001 / 2) 2 1 0 0 0 u32npot_one.symm
    (by norm_num) (by norm_num) (by norm_num) (by norm_num)
  have hget1 := cubemapData_get shBand0Only 1 (20001 / 2) 2 1 1 0 0 u32npot_one.symm
    (by norm_num) (by norm_num) (by norm_num) (by norm_num)
  have hpc0 : pixelColor shBand0Only
      ((sh_lookup shBand0Only (-sh_dominant_dir shBand0Only)).smul 2)
      (lightPtLoop (sh_dominant_dir shBand0Only)) (20001 / 2) 0 1 0 0 =
        (⟨0.282095 * PI32, 0.282095 * PI32, 0.282095 * PI32, 1⟩ : V4).smul 2 := by
    simp only [pixelColor]
    rw [hlp, interpPoint_face0, shB0_lookup]
    rw [if_pos]
    simp only [sentinelPt, V3.splat, V3.sub_x, V3.sub_y, V3.sub_z, V3.abs, V3.maxElement]
    rw [show |(1 : ℝ) - 10000| = 9999 from by rw [abs_of_nonpos (by norm_num)]; norm_num,
      show |(0 : ℝ) - 10000| = 10000 from by rw [abs_of_nonpos (by norm_num)]; norm_num]
    norm_num
  have hpc1 : pixelColor shBand0Only
      ((sh_lookup shBand0Only (-sh_dominant_dir shBand0Only)).smul 2)
      (lightPtLoop (sh_dominant_dir shBand0Only)) (20001 / 2) 1 1 0 0 =
        ⟨0.282095 * PI32, 0.282095 * PI32, 0.282095 * PI32, 1⟩ := by
    simp only [pixelColor]
    rw [hlp, interpPoint_face1, shB0_lookup, shB0_lookup]
    rw [if_neg]
    simp only [sentinelPt, V3.splat, V3.sub_x, V3.sub_y, V3.sub_z, V3.abs, V3.maxElement]
    rw [show |(-1 : ℝ) - 10000| = 10001 from by rw [abs_of_nonpos (by norm_num)]; norm_num,
      show |(0 : ℝ) - 10000| = 10000 from by rw [abs_of_nonpos (by norm_num)]; norm_num]
    norm_num
  have hbyte0 : (imageData shBand0Only 1 (20001 / 2) 2)[4 * 0 + 0]? = some 255 := by
    unfold imageData
    rw [flatMap_packPixel_get _ 0 0 (by norm_num)]
    have hidx : (cubemapData shBand0Only 1 (20001 / 2) 2)[(0 : ℕ)]? =
        some (pixelColor shBand0Only
          ((sh_lookup shBand0Only (-sh_dominant_dir shBand0Only)).smul 2)
          (lightPtLoop (sh_dominant_dir shBand0Only)) (20001 / 2) 0 1 0 0) := hget0
    rw [hidx, Option.some_bind, hpc0]
    show some (packChannel (0.282095 * PI32 * 2)) = some 255
    rw [packChannel_spot]
  have hbyte1 : (imageData shBand0Only 1 (20001 / 2) 2)[4 * 1 + 0]? = some 225 := by
    unfold imageData
    rw [flatMap_packPixel_get _ 1 0 (by norm_num)]
    have hidx : (cubemapData shBand0Only 1 (20001 / 2) 2)[(1 : ℕ)]? =
        some (pixelColor shBand0Only
          ((sh_lookup shBand0Only (-sh_dominant_dir shBand0Only)).smul 2)
          (lightPtLoop (sh_dominant_dir shBand0Only)) (20001 / 2) 1 1 0 0) := hget1
    rw [hidx, Option.some_bind, hpc1]
    show some (packChannel (0.282095 * PI32)) = some 225
    rw [packChannel_ambient]
  intro heq
  have hfst : (imageData shBand0Only 1 (20001 / 2) 2)[4 * 0]? =
      (imageData shBand0Only 1 (20001 / 2) 2)[4 * 1]? := congrArg (fun q => q.1) heq
  have hb0 : (imageData shBand0Only 1 (20001 / 2) 2)[4 * 0]? = some 255 := hbyte0
  have hb1 : (imageData shBand0Only 1 (20001 / 2) 2)[4 * 1]? = some 225 := hbyte1
  rw [hb0, hb1] at hfst
  simp at hfst
